import Mathlib

/-!
Verification of the EVIO version 6 (HIPO) record format library.

The development shallowly embeds the parts of the code base that the
properties below are about:

* the record/file header codec of
  `src/java/org/jlab/coda/hipo/RecordHeader.java` (padding and word
  computations, bit-info word, `writeHeader`, `readHeader`);
* the C swap routines of `evioswap.c` (`src/unnamed/part_004`):
  `swap_int32_t`, `swap_int16_t`, `swap_int64_t`, `evioSwapRecordHeaderV6`,
  `swap_bank`, `swap_segment`, `swap_tagsegment`, `swap_data`;
* the buffer-mutation and file-scanning methods of
  `src/src/newlib++/Reader.cpp` (`removeStructure`, `addStructure`,
  `scanFile`, `forceScanFile`, `getEvent`).

Memory is modelled at the granularity the format guarantees: an evio buffer
is 4-byte aligned throughout, so a buffer is a `List Nat` of raw 32-bit
memory words, where the raw word is the little-endian interpretation of its
four bytes.  Equality of raw-word lists is exactly byte-for-byte equality
of buffers.  `putw`/`getw` model `ByteBuffer.putInt`/`getInt` under a byte
order (`true` = little endian), `putl`/`getl` model `putLong`/`getLong`.

The file is organized as definitions first, then theorems.
-/

namespace Evio

/-! ## Definitions: bytes and words -/

/-- Byte `k` (0 = least significant) of a natural viewed as a 32-bit value. -/
def byteOf (w k : Nat) : Nat := w / 256 ^ k % 256

/-- Byte-reverse a 32-bit word: the `EVIO_SWAP32` macro of `evio.h`. -/
def bswap32 (w : Nat) : Nat :=
  byteOf w 0 * 16777216 + byteOf w 1 * 65536 + byteOf w 2 * 256 + byteOf w 3

/-- Raw memory word written by `ByteBuffer.putInt` for value `v` under byte
order `ord` (`true` = little endian): the value is truncated to 32 bits and,
for big-endian buffers, its bytes land reversed in (little-endian raw) memory. -/
def putw (ord : Bool) (v : Nat) : Nat :=
  if ord then v % 4294967296 else bswap32 (v % 4294967296)

/-- Value returned by `ByteBuffer.getInt` reading raw memory word `m` under
byte order `ord` (`true` = little endian). -/
def getw (ord : Bool) (m : Nat) : Nat :=
  if ord then m else bswap32 m

/-- Pair of raw memory words written by `ByteBuffer.putLong` for a 64-bit
value under byte order `ord`: lower-addressed word first. -/
def putl (ord : Bool) (v : Nat) : Nat × Nat :=
  let v64 := v % 18446744073709551616
  if ord then (v64 % 4294967296, v64 / 4294967296)
  else (bswap32 (v64 / 4294967296), bswap32 (v64 % 4294967296))

/-- Value returned by `ByteBuffer.getLong` from the two raw words `a` (lower
address) and `b` under byte order `ord`. -/
def getl (ord : Bool) (a b : Nat) : Nat :=
  if ord then a + 4294967296 * b else 4294967296 * bswap32 a + bswap32 b

/-! ## Definitions: the record header codec (`RecordHeader.java`) -/

/-- The pad-lookup table: `private static int[] padValue = {0,3,2,1}`. -/
def padValue : List Nat := [0, 3, 2, 1]

/-- Bytes needed to pad `length` to a 4-byte boundary:
`private int getPadding(int length) {return padValue[length%4];}`. -/
def getPadding (length : Nat) : Nat := padValue.getD (length % 4) 0

/-- Length in words padded to a 4-byte boundary (`RecordHeader.getWords`). -/
def getWords (length : Nat) : Nat :=
  let padding := getPadding length
  let words := length / 4
  if padding > 0 then words + 1 else words

/-- Field state of a `RecordHeader` object.  The Java `position` field is
omitted: neither `writeHeader` nor `readHeader` nor any setter involved in
the claims touches it. -/
structure RecordHeaderS where
  recordLength : Nat := 0
  recordNumber : Nat := 0
  entries : Nat := 0
  headerLength : Nat := 0
  userHeaderLength : Nat := 0
  indexLength : Nat := 0
  dataLength : Nat := 0
  compressedDataLength : Nat := 0
  compressionType : Nat := 0
  userHeaderLengthPadding : Nat := 0
  dataLengthPadding : Nat := 0
  compressedDataLengthPadding : Nat := 0
  recordLengthPadding : Nat := 0
  dataLengthWords : Nat := 0
  compressedDataLengthWords : Nat := 0
  userHeaderLengthWords : Nat := 0
  recordLengthWords : Nat := 0
  headerLengthWords : Nat := 0
  recordUserRegisterFirst : Nat := 0
  recordUserRegisterSecond : Nat := 0
  headerVersion : Nat := 6
  headerMagicWord : Nat := 0
  deriving Repr, DecidableEq

/-- The state produced by `new RecordHeader()`: field initializers plus the
constructor assignment `headerMagicWord = HEADER_MAGIC_LE` (0xc0da0100). -/
def RecordHeaderS.init : RecordHeaderS := { headerMagicWord := 0xc0da0100 }

def RecordHeaderS.setLength (h : RecordHeaderS) (length : Nat) : RecordHeaderS :=
  { h with recordLength := length, recordLengthWords := getWords length,
           recordLengthPadding := getPadding length }

def RecordHeaderS.setDataLength (h : RecordHeaderS) (length : Nat) : RecordHeaderS :=
  { h with dataLength := length, dataLengthWords := getWords length,
           dataLengthPadding := getPadding length }

def RecordHeaderS.setCompressedDataLength (h : RecordHeaderS) (length : Nat) : RecordHeaderS :=
  { h with compressedDataLength := length, compressedDataLengthWords := getWords length,
           compressedDataLengthPadding := getPadding length }

def RecordHeaderS.setIndexLength (h : RecordHeaderS) (length : Nat) : RecordHeaderS :=
  { h with indexLength := length }

def RecordHeaderS.setCompressionType (h : RecordHeaderS) (type : Nat) : RecordHeaderS :=
  { h with compressionType := type }

def RecordHeaderS.setEntries (h : RecordHeaderS) (n : Nat) : RecordHeaderS :=
  { h with entries := n }

def RecordHeaderS.setUserHeaderLength (h : RecordHeaderS) (length : Nat) : RecordHeaderS :=
  { h with userHeaderLength := length, userHeaderLengthWords := getWords length,
           userHeaderLengthPadding := getPadding length }

def RecordHeaderS.setHeaderLength (h : RecordHeaderS) (length : Nat) : RecordHeaderS :=
  { h with headerLength := length, headerLengthWords := length / 4 }

def RecordHeaderS.setRecordNumber (h : RecordHeaderS) (num : Nat) : RecordHeaderS :=
  { h with recordNumber := num }

def RecordHeaderS.setVersion (h : RecordHeaderS) (version : Nat) : RecordHeaderS :=
  { h with headerVersion := version }

def RecordHeaderS.setUserRegisterFirst (h : RecordHeaderS) (reg : Nat) : RecordHeaderS :=
  { h with recordUserRegisterFirst := reg }

def RecordHeaderS.setUserRegisterSecond (h : RecordHeaderS) (reg : Nat) : RecordHeaderS :=
  { h with recordUserRegisterSecond := reg }

/-- The bit-info word (`RecordHeader.getBitInfoWord`). -/
def getBitInfoWord (h : RecordHeaderS) : Nat :=
  (h.userHeaderLengthPadding <<< 20) ||| (h.dataLengthPadding <<< 22) |||
    (h.compressedDataLengthPadding <<< 24) ||| (h.headerVersion &&& 0x000000FF)

/-- Write the 14 header words (`RecordHeader.writeHeader`) into a buffer of
byte order `ord`; the result is the raw-word image of the 56 bytes. -/
def writeHeader (h : RecordHeaderS) (ord : Bool) : List Nat :=
  [putw ord h.recordLengthWords,
   putw ord h.recordNumber,
   putw ord h.headerLength,
   putw ord h.entries,
   putw ord h.indexLength,
   putw ord (getBitInfoWord h),
   putw ord h.userHeaderLength,
   putw ord h.headerMagicWord,
   putw ord h.dataLength,
   putw ord ((h.compressedDataLengthWords &&& 0x0FFFFFFF) |||
             ((h.compressionType &&& 0x0000000F) <<< 28)),
   (putl ord h.recordUserRegisterFirst).1,
   (putl ord h.recordUserRegisterFirst).2,
   (putl ord h.recordUserRegisterSecond).1,
   (putl ord h.recordUserRegisterSecond).2]

/-- Run `readHeader(buffer)` on the instance state `h0`, where `mem` is the
raw-word image of the buffer and `ord` its current byte order.  Mirrors the
Java method statement by statement; note that the code merely has TODO
comments at the bad-magic and bad-version branches — it does not throw, so
the function is total.  Returns the updated header object and the buffer's
byte order after the call. -/
def readHeaderOn (h0 : RecordHeaderS) (mem : List Nat) (ord : Bool) :
    RecordHeaderS × Bool :=
  let magic := getw ord (mem.getD 7 0)
  let ord1 := if magic ≠ 0xc0da0100 then (if magic = 0x0010dac0 then !ord else ord)
              else ord
  let bitInfo := getw ord1 (mem.getD 5 0)
  let version := bitInfo &&& 0x000000FF
  let rlw := getw ord1 (mem.getD 0 0)
  let h1 := { h0 with headerMagicWord := magic, headerVersion := version,
                      recordLengthWords := rlw, recordLength := rlw * 4,
                      recordLengthPadding := 0,
                      recordNumber := getw ord1 (mem.getD 1 0),
                      headerLength := getw ord1 (mem.getD 2 0),
                      entries := getw ord1 (mem.getD 3 0) }
  let h2 := h1.setIndexLength (getw ord1 (mem.getD 4 0))
  let h3 := h2.setUserHeaderLength (getw ord1 (mem.getD 6 0))
  let h4 := h3.setDataLength (getw ord1 (mem.getD 8 0))
  let compressionWord := getw ord1 (mem.getD 9 0)
  let h5 := h4.setCompressionType (compressionWord >>> 28)
  let h6 := h5.setCompressedDataLength (compressionWord &&& 0x0FFFFFFF)
  let h7 := { h6 with recordUserRegisterFirst := getl ord1 (mem.getD 10 0) (mem.getD 11 0),
                      recordUserRegisterSecond := getl ord1 (mem.getD 12 0) (mem.getD 13 0) }
  (h7, ord1)

/-- Parse a header from a buffer with a freshly constructed `RecordHeader`,
as `main` of `RecordHeader.java` does (`header2.readHeader(buffer)`). -/
def readHeader (mem : List Nat) (ord : Bool) : RecordHeaderS × Bool :=
  readHeaderOn RecordHeaderS.init mem ord

/-- Build a header by the setter chain of `RecordHeader.main`, generalized to
arbitrary primary field values (record length, record number, header length,
entries, index length, version, user-header length, data length, compressed
length, compression type, the two user registers). -/
def mkHeader (L R HL E IL V UL DL CL CT U1 U2 : Nat) : RecordHeaderS :=
  (((((((((((RecordHeaderS.init.setCompressedDataLength CL).setDataLength
      DL).setUserHeaderLength UL).setIndexLength IL).setLength
      L).setUserRegisterFirst U1).setUserRegisterSecond U2).setRecordNumber
      R).setEntries E).setHeaderLength HL).setCompressionType CT).setVersion V

/-- The exact header constructed in `RecordHeader.main` of the source. -/
def mainHeader : RecordHeaderS :=
  let h0 := (((RecordHeaderS.init.setCompressedDataLength 861).setDataLength
      12457).setUserHeaderLength 459).setIndexLength 324
  let h1 := h0.setLength (16 + h0.compressedDataLengthWords)
  (((((h1.setUserRegisterFirst 1234567).setUserRegisterSecond
      4567890).setRecordNumber 23).setEntries 3245).setHeaderLength
      14).setCompressionType 1

/-- A 14-word buffer whose word 7 is not the magic word in either byte
order and whose version byte (low 8 bits of word 5) is 4. -/
def badMagicBuf : List Nat :=
  [2, 23, 14, 3245, 324, 4, 459, 0x12345678, 12457, 861, 1, 2, 3, 4]

/-- A 14-word buffer whose word 7 reads as the constant `HEADER_MAGIC_BE`
(0x0010dac0) under a little-endian order, triggering the flip branch. -/
def flipMagicBuf : List Nat :=
  [2, 23, 14, 3245, 324, 6, 459, 0x0010dac0, 12457, 861, 1, 2, 3, 4]

/-- A 14-word buffer holding a genuinely byte-swapped version-6 header: each
word is the byte reversal of the words `writeHeader RecordHeaderS.init`
would produce in the reader's order (word 7 reads as 0x0001dac0). -/
def swappedMagicBuf : List Nat :=
  (writeHeader { RecordHeaderS.init with headerLength := 14 } true).map bswap32

/-! ## Definitions: C swap routines of `evioswap.c` -/

/-- The routine `swap_int32_t(data, length, NULL)` applied to an exact-length
buffer: byte-reverse every 32-bit word in place. -/
def swap_int32_t (ws : List Nat) : List Nat := ws.map bswap32

/-- The two-assignment word exchange used for the 64-bit header entries
(`temp = header[i]; header[i] = header[j]; header[j] = temp`). -/
def exchangeWords (ws : List Nat) (i j : Nat) : List Nat :=
  (ws.set i (ws.getD j 0)).set j (ws.getD i 0)

/-- The C routine `evioSwapRecordHeaderV6`: swap all `EV_HDSIZ_V6` (= 14,
the version-6 header size) words as 32-bit quantities, then exchange words
10/11 (user register 1) and words 12/13 (user register 2). -/
def evioSwapRecordHeaderV6 (header : List Nat) : List Nat :=
  exchangeWords (exchangeWords (swap_int32_t header) 10 11) 12 13

/-- Effect of `swap_int16_t` on one raw 32-bit word: the two 16-bit
quantities it holds are byte-reversed in place, so bytes `[b0,b1,b2,b3]`
become `[b1,b0,b3,b2]`. -/
def swap16w (w : Nat) : Nat :=
  byteOf w 1 + byteOf w 0 * 256 + byteOf w 3 * 65536 + byteOf w 2 * 16777216

/-- The routine `swap_int16_t(data, length*2, dest)` applied to a payload of
`length` words: every 16-bit quantity is byte-reversed. -/
def swap_int16_t (ws : List Nat) : List Nat := ws.map swap16w

/-- The routine `swap_int64_t(data, length/2, dest)` applied to a payload of
`length` words: each pair of raw words `[a, b]` holding one 64-bit quantity
has its 8 bytes reversed (so the pair becomes `[bswap32 b, bswap32 a]`); a
trailing odd word is untouched, as `length/2` truncates. -/
def swap_int64_t : List Nat → List Nat
  | a :: b :: rest => bswap32 b :: bswap32 a :: swap_int64_t rest
  | l => l

/-!
The recursive swapper of `evioswap.c`.  `hle` is the host byte order
(`true` = little-endian host); `tolocal` ≠ 0 means the buffer holds data of
the opposite endianness to the host.  The C routines read `uint32_t` loads
whose value is the host interpretation (`getw hle`) of the raw word, and
for `tolocal` they swap a header first and then read it, which on raw words
is reading `getw hle (bswap32 w)`.  The C recursion is bounded here by
explicit fuel (the C code would read out of bounds on malformed input;
those paths return `none`).  The composite branch (type 0xf) delegates to
the external `eviofmt`/`eviofmtswap` routines from the Hall-B composite
swap library, which are only `extern` declarations in this repository; it
is therefore not modelled and yields `none`.
-/

mutual

/-- The C routine `swap_bank`: swap the 2-word bank header, dispatch on the
contained type (`(word1 >> 8) & 0x3f`), and swap `word0 - 1` words of data. -/
def swap_bank (hle : Bool) : Nat → List Nat → Bool → Option (List Nat)
  | 0, _, _ => none
  | fuel + 1, w0 :: w1 :: rest, tolocal =>
      let hv0 := if tolocal then getw hle (bswap32 w0) else getw hle w0
      let hv1 := if tolocal then getw hle (bswap32 w1) else getw hle w1
      if rest.length + 1 = hv0 then
        (swap_data hle fuel ((hv1 >>> 8) &&& 0x3f) rest tolocal).map
          (fun body => bswap32 w0 :: bswap32 w1 :: body)
      else none
  | _ + 1, _, _ => none

/-- The C routine `swap_segment`: swap the 1-word header, dispatch on
`(word0 >> 16) & 0x3f`, and swap `word0 & 0xffff` words of data. -/
def swap_segment (hle : Bool) : Nat → List Nat → Bool → Option (List Nat)
  | 0, _, _ => none
  | fuel + 1, w0 :: rest, tolocal =>
      let hv0 := if tolocal then getw hle (bswap32 w0) else getw hle w0
      if rest.length = hv0 &&& 0xffff then
        (swap_data hle fuel ((hv0 >>> 16) &&& 0x3f) rest tolocal).map
          (fun body => bswap32 w0 :: body)
      else none
  | _ + 1, _, _ => none

/-- The C routine `swap_tagsegment`: swap the 1-word header, dispatch on
`(word0 >> 16) & 0xf`, and swap `word0 & 0xffff` words of data. -/
def swap_tagsegment (hle : Bool) : Nat → List Nat → Bool → Option (List Nat)
  | 0, _, _ => none
  | fuel + 1, w0 :: rest, tolocal =>
      let hv0 := if tolocal then getw hle (bswap32 w0) else getw hle w0
      if rest.length = hv0 &&& 0xffff then
        (swap_data hle fuel ((hv0 >>> 16) &&& 0xf) rest tolocal).map
          (fun body => bswap32 w0 :: body)
      else none
  | _ + 1, _, _ => none

/-- The C routine `swap_data`: dispatch on the evio type code. -/
def swap_data (hle : Bool) : Nat → Nat → List Nat → Bool → Option (List Nat)
  | 0, _, _, _ => none
  | fuel + 1, type, data, tolocal =>
      if type = 0x1 ∨ type = 0x2 ∨ type = 0xb then some (swap_int32_t data)
      else if type = 0x0 ∨ type = 0x3 ∨ type = 0x6 ∨ type = 0x7 then some data
      else if type = 0x4 ∨ type = 0x5 then some (swap_int16_t data)
      else if type = 0x8 ∨ type = 0x9 ∨ type = 0xa then some (swap_int64_t data)
      else if type = 0xf then none
      else if type = 0xe ∨ type = 0x10 then bankLoop hle fuel data tolocal
      else if type = 0xd ∨ type = 0x20 then segLoop hle fuel data tolocal
      else if type = 0xc then tagLoop hle fuel data tolocal
      else some data

/-- The bank-container loop of `swap_data` (cases 0xe/0x10): walk the
children by `data[l] + 1` words each, swapping every child bank. -/
def bankLoop (hle : Bool) : Nat → List Nat → Bool → Option (List Nat)
  | 0, _, _ => none
  | _ + 1, [], _ => some []
  | fuel + 1, w :: rest, tolocal =>
      let hw := if tolocal then getw hle (bswap32 w) else getw hle w
      let frag := hw + 1
      match swap_bank hle fuel ((w :: rest).take frag) tolocal,
            bankLoop hle fuel ((w :: rest).drop frag) tolocal with
      | some c, some r => some (c ++ r)
      | _, _ => none

/-- The segment-container loop of `swap_data` (cases 0xd/0x20): walk the
children by `(data[l] & 0xffff) + 1` words each. -/
def segLoop (hle : Bool) : Nat → List Nat → Bool → Option (List Nat)
  | 0, _, _ => none
  | _ + 1, [], _ => some []
  | fuel + 1, w :: rest, tolocal =>
      let hw := if tolocal then getw hle (bswap32 w) else getw hle w
      let frag := (hw &&& 0xffff) + 1
      match swap_segment hle fuel ((w :: rest).take frag) tolocal,
            segLoop hle fuel ((w :: rest).drop frag) tolocal with
      | some c, some r => some (c ++ r)
      | _, _ => none

/-- The tagsegment-container loop of `swap_data` (case 0xc). -/
def tagLoop (hle : Bool) : Nat → List Nat → Bool → Option (List Nat)
  | 0, _, _ => none
  | _ + 1, [], _ => some []
  | fuel + 1, w :: rest, tolocal =>
      let hw := if tolocal then getw hle (bswap32 w) else getw hle w
      let frag := (hw &&& 0xffff) + 1
      match swap_tagsegment hle fuel ((w :: rest).take frag) tolocal,
            tagLoop hle fuel ((w :: rest).drop frag) tolocal with
      | some c, some r => some (c ++ r)
      | _, _ => none

end

/-- The C routine `evioswap(buf, tolocal, dest)`: an evio event is a bank,
so it delegates to `swap_bank`.  Both the in-place call (`dest == NULL`)
and the copying call compute the same output bytes — `copy_data` copies the
source words unchanged and the post-swap length reads used for walking
containers see the same values either way — so one function models both. -/
def evioswap (hle : Bool) (fuel : Nat) (buf : List Nat) (tolocal : Bool) :
    Option (List Nat) :=
  swap_bank hle fuel buf tolocal

/-! ## Definitions: well-formed evio event trees -/

/-- The three evio container kinds. -/
inductive SKind where
  | bank
  | seg
  | tagseg
  deriving Repr, DecidableEq

mutual

/-- Content of an evio structure: a primitive payload (raw words in native
encoding) of a given type code, or a list of child structures of one
container kind with the container type code used in the header. -/
inductive EvContent where
  | prim (t : Nat) (ws : List Nat) : EvContent
  | kids (t : Nat) (k : SKind) (f : EvForest) : EvContent

/-- An evio structure: kind, header fields, content.  For segments and
tagsegments `num` is unused, and tagsegments carry no pad bits. -/
inductive EvStruct where
  | mk (k : SKind) (tag pad num : Nat) (c : EvContent) : EvStruct

/-- A list of sibling evio structures. -/
inductive EvForest where
  | nil : EvForest
  | cons (s : EvStruct) (f : EvForest) : EvForest

end

/-- The type code announced in a structure's header. -/
def typeOf : EvContent → Nat
  | .prim t _ => t
  | .kids t _ _ => t

/-- Kind of a structure. -/
def kindOf : EvStruct → SKind
  | .mk k _ _ _ _ => k

mutual

/-- Payload (content) length in words. -/
def contentWords : EvContent → Nat
  | .prim _ ws => ws.length
  | .kids _ _ f => forestWords f

/-- Total length of a structure in words, header included. -/
def structWords : EvStruct → Nat
  | .mk .bank _ _ _ c => 2 + contentWords c
  | .mk .seg _ _ _ c => 1 + contentWords c
  | .mk .tagseg _ _ _ c => 1 + contentWords c

/-- Total length of a forest in words. -/
def forestWords : EvForest → Nat
  | .nil => 0
  | .cons s f => structWords s + forestWords f

end

/-- Header words of a structure as host values, per the bit layouts
`BANK: W0 = length-1, W1 = (tag:16)(pad:2)(type:6)(num:8)`,
`SEGMENT: (tag:8)(pad:2)(type:6)(length:16)`,
`TAGSEGMENT: (tag:12)(type:4)(length:16)`. -/
def headWords : EvStruct → List Nat
  | .mk .bank tag pad num c =>
      [contentWords c + 1, tag * 65536 + pad * 16384 + typeOf c * 256 + num]
  | .mk .seg tag pad _ c =>
      [tag * 16777216 + pad * 4194304 + typeOf c * 65536 + contentWords c]
  | .mk .tagseg tag _ _ c =>
      [tag * 1048576 + typeOf c * 65536 + contentWords c]

/-- The byte transformation the swap applies to a primitive payload:
32-bit types swap whole words, 16-bit types swap byte pairs, 64-bit types
swap 8-byte groups, everything else (byte data, unknown) is untouched. -/
def payloadSwap (t : Nat) (ws : List Nat) : List Nat :=
  if t = 0x1 ∨ t = 0x2 ∨ t = 0xb then swap_int32_t ws
  else if t = 0x4 ∨ t = 0x5 then swap_int16_t ws
  else if t = 0x8 ∨ t = 0x9 ∨ t = 0xa then swap_int64_t ws
  else ws

mutual

/-- Serialize a structure to raw words in the host byte order. -/
def serS (hle : Bool) : EvStruct → List Nat
  | .mk k tag pad num c =>
      (headWords (.mk k tag pad num c)).map (putw hle) ++ serC hle c

/-- Serialize content in the host byte order. -/
def serC (hle : Bool) : EvContent → List Nat
  | .prim _ ws => ws
  | .kids _ _ f => serF hle f

/-- Serialize a forest in the host byte order. -/
def serF (hle : Bool) : EvForest → List Nat
  | .nil => []
  | .cons s f => serS hle s ++ serF hle f

end

mutual

/-- Serialize a structure in the byte order opposite to the host: header
words are byte-reversed and payloads are stored per `payloadSwap`. -/
def serSx (hle : Bool) : EvStruct → List Nat
  | .mk k tag pad num c =>
      (headWords (.mk k tag pad num c)).map (fun v => bswap32 (putw hle v)) ++ serCx hle c

/-- Serialize content in the byte order opposite to the host. -/
def serCx (hle : Bool) : EvContent → List Nat
  | .prim t ws => payloadSwap t ws
  | .kids _ _ f => serFx hle f

/-- Serialize a forest in the byte order opposite to the host. -/
def serFx (hle : Bool) : EvForest → List Nat
  | .nil => []
  | .cons s f => serSx hle s ++ serFx hle f

end

/-- A primitive payload is well formed when its type code is not a
container or composite code, its raw words are 32-bit values, and 64-bit
types hold an even number of words (`swap_int64_t` swaps `length/2` pairs;
an odd trailing word would not be a 64-bit payload). -/
def primOk (t : Nat) (ws : List Nat) : Bool :=
  !(t == 0xc || t == 0xd || t == 0xe || t == 0xf || t == 0x10 || t == 0x20) &&
  ws.all (fun w => w < 4294967296) &&
  (if t == 0x8 || t == 0x9 || t == 0xa then ws.length % 2 == 0 else true)

/-- The container type codes a kind may be announced as. -/
def kindCode (k : SKind) (t : Nat) : Bool :=
  match k with
  | .bank => t == 0xe || t == 0x10
  | .seg => t == 0xd || t == 0x20
  | .tagseg => t == 0xc

mutual

/-- Well-formedness of a structure: field ranges of the header bit layout
and well-formed content; tagsegments only have a 4-bit type field. -/
def wfS : EvStruct → Bool
  | .mk k tag pad num c =>
      wfC c &&
      (match k with
       | .bank => tag < 65536 && pad < 4 && num < 256 && typeOf c < 64 &&
           decide (contentWords c + 1 < 4294967296)
       | .seg => tag < 256 && pad < 4 && num == 0 && typeOf c < 64 &&
           contentWords c < 65536
       | .tagseg => tag < 4096 && pad == 0 && num == 0 && typeOf c < 16 &&
           contentWords c < 65536)

/-- Well-formedness of content. -/
def wfC : EvContent → Bool
  | .prim t ws => primOk t ws
  | .kids t k f => kindCode k t && wfF k f

/-- Well-formedness of a forest of children of kind `k`. -/
def wfF : SKind → EvForest → Bool
  | _, .nil => true
  | k, .cons s f => kindOf s == k && wfS s && wfF k f

end

mutual

/-- Fuel sufficient for the swapper on a structure. -/
def fuelS : EvStruct → Nat
  | .mk _ _ _ _ c => 1 + fuelC c

/-- Fuel sufficient for `swap_data` on content. -/
def fuelC : EvContent → Nat
  | .prim _ _ => 1
  | .kids _ _ f => 1 + fuelF f

/-- Fuel sufficient for a container loop on a forest. -/
def fuelF : EvForest → Nat
  | .nil => 1
  | .cons s f => 1 + max (fuelS s) (fuelF f)

end

/-- The structure-swapping routine for each container kind. -/
def swapStruct (k : SKind) : Bool → Nat → List Nat → Bool → Option (List Nat) :=
  match k with
  | .bank => swap_bank
  | .seg => swap_segment
  | .tagseg => swap_tagsegment

/-- The container loop for each kind. -/
def loopOf (k : SKind) : Bool → Nat → List Nat → Bool → Option (List Nat) :=
  match k with
  | .bank => bankLoop
  | .seg => segLoop
  | .tagseg => tagLoop

/-!
## Definitions: Reader buffer mutation (`Reader.cpp`)

The Reader's buffer is uncompressed evio data, 4-byte aligned throughout,
so it is modelled as a list of 32-bit words in the reader's byte order;
byte offsets in the code are word offsets times 4.  The record header's
`UNCOMPRESSED_LENGTH_OFFSET` is 32 bytes (word 8 of the record header, per
the word layout in `RecordHeader.java`); the record length at word 0 is
stored in words, and the code's `(4*oldLen ± delta)/4` with a word-multiple
`delta` is exactly `oldLen ± deltaWords`.  `EvioNode::updateLengths` is
declared but not implemented under the sources provided; following the
spec — "Walk ancestors decrementing their `length` words" — it is modelled
as subtracting the removed word count at each ancestor's length-word
position.
-/

/-- The slice of an `EvioNode` handle that `removeStructure` uses: node
position and total size (in words), the containing record's header
position, the positions of the ancestors' length words, and the obsolete
mark. -/
structure RNode where
  posW : Nat
  totalW : Nat
  recPosW : Nat
  ancestors : List Nat
  obsolete : Bool
  deriving Repr, DecidableEq

/-- The buffer effect of `Reader::removeStructure`: shift everything past
the removed node down over it, decrement each ancestor length word by the
removed word count, decrement the record header's length word (words) and
uncompressed-data-length word (bytes) at offsets 0 and 8 of the record
position. -/
def removeStructure (buf : List Nat) (node : RNode) : List Nat :=
  let shifted := buf.take node.posW ++ buf.drop (node.posW + node.totalW)
  let anc := node.ancestors.foldl (fun b p => b.set p (b.getD p 0 - node.totalW)) shifted
  let b1 := anc.set node.recPosW (anc.getD node.recPosW 0 - node.totalW)
  b1.set (node.recPosW + 8) (b1.getD (node.recPosW + 8) 0 - 4 * node.totalW)

/-- Marking every node from the last scan obsolete
(`for (EvioNode ev : eventNodes) ev.setObsolete(true)`). -/
def markObsolete (nodes : List RNode) : List RNode :=
  nodes.map (fun n => { n with obsolete := true })

/-- Serialized bank with header word `w1` and the given payload words:
word 0 is the length (words following word 0). -/
def mkBank (w1 : Nat) (payload : List Nat) : List Nat :=
  (payload.length + 1) :: w1 :: payload

/-- Total word count of a `(headerWord1, payload)` bank description. -/
def kidWords (k : Nat × List Nat) : Nat := 2 + k.2.length

/-- Serialize a list of sibling banks. -/
def serKids : List (Nat × List Nat) → List Nat
  | [] => []
  | k :: ks => mkBank k.1 k.2 ++ serKids ks

/-- Total word count of a list of sibling banks. -/
def sumKidWords (ks : List (Nat × List Nat)) : Nat := (ks.map kidWords).sum

/-- The sibling walk of the Reader's rescan (`extractNode`/`scanBuffer`
essence for bank containers): starting at absolute word position `base`,
read each bank's length word, record `(position, totalWords)`, and hop by
`totalWords = word0 + 1`; a bank shorter than 2 words or overrunning the
region is bad evio format (`none`). -/
def scanBanks : Nat → Nat → List Nat → Option (List (Nat × Nat))
  | _, _, [] => some []
  | 0, _, _ :: _ => none
  | fuel + 1, base, w0 :: rest =>
      let total := w0 + 1
      if 2 ≤ total ∧ total ≤ (w0 :: rest).length then
        (scanBanks fuel (base + total) ((w0 :: rest).drop total)).map
          (fun l => (base, total) :: l)
      else none

/-- The expected scan result for a list of sibling banks laid out from
`base`. -/
def expectedScan (base : Nat) : List (Nat × List Nat) → List (Nat × Nat)
  | [] => []
  | k :: ks => (base, kidWords k) :: expectedScan (base + kidWords k) ks

/-- The node handle for child `j` of a single-event buffer whose record
header and index occupy `pre` and whose event bank holds the `kids`: the
child sits after the record prefix and the 2-word event header and the
earlier siblings, and its only ancestor length word is the event's word 0
at position `pre.length`. -/
def childNode (pre : List Nat) (kids : List (Nat × List Nat)) (j : Nat) : RNode :=
  { posW := pre.length + 2 + sumKidWords (kids.take j),
    totalW := kidWords (kids.getD j (0, [])),
    recPosW := 0,
    ancestors := [pre.length],
    obsolete := false }

/-- A single-record uncompressed buffer: record header plus index (`pre`,
with the record length word at 0 and the uncompressed-data-length word at
8) followed by one event bank containing the `kids`. -/
def eventBuf (pre : List Nat) (evW1 : Nat) (kids : List (Nat × List Nat)) : List Nat :=
  pre ++ mkBank evW1 (serKids kids)

/-- The slice of an event `EvioNode` that `Reader::addStructure` uses:
the word position just past the event's payload, the position of the
event's length word, and the containing record's header position. -/
structure ENode where
  endW : Nat
  lenPosW : Nat
  recPosW : Nat
  deriving Repr, DecidableEq

/-- The buffer effect of `Reader::addStructure(eventNumber, addBuffer)`:
after the argument checks (at least 8 bytes of data, event number ≥ 1) and
the lookup `eventNodes.get(eventNumber - 1)` for the insertion point, the
new buffer is built by inserting the added words just past the event's
payload; then — as in the code — the node used for the length updates is
fetched with `eventNodes.get(eventNumber)`, NOT `eventNumber - 1`, and its
(stale, pre-insertion) positions receive the length increments. -/
def addStructure (buf : List Nat) (eventNodes : List ENode) (eventNumber : Nat)
    (addWords : List Nat) : Option (List Nat) :=
  if addWords.length < 2 then none
  else if eventNumber < 1 then none
  else
    match eventNodes.get? (eventNumber - 1) with
    | none => none
    | some eventNode =>
        let newBuffer := buf.take eventNode.endW ++ addWords ++ buf.drop eventNode.endW
        match eventNodes.get? eventNumber with
        | none => none
        | some addToNode =>
            let b1 := newBuffer.set addToNode.lenPosW
                (newBuffer.getD addToNode.lenPosW 0 + addWords.length)
            let b2 := b1.set addToNode.recPosW
                (b1.getD addToNode.recPosW 0 + addWords.length)
            some (b2.set (addToNode.recPosW + 8)
                (b2.getD (addToNode.recPosW + 8) 0 + 4 * addWords.length))

/-- Record-header-plus-index prefix of the structural-removal test buffer
(9 words: record length 50 words at word 0, uncompressed data length 104
bytes at word 8). -/
def preW : List Nat := [50, 1, 14, 1, 4, 6, 0, 0xc0da0100, 104]

/-- Three 8-word child banks A, B, C of the structural-removal test event,
per the spec's scenario 5. -/
def kidsW : List (Nat × List Nat) :=
  [(100, [1, 2, 3, 4, 5, 6]), (200, [7, 8, 9, 10, 11, 12]),
   (300, [13, 14, 15, 16, 17, 18])]

/-! ## File scanning: `Reader::scanFile` and `Reader::forceScanFile`

The `FileHeader` class itself is not among the sources, so the file-header
accessors that `scanFile` consults are abstracted into fields of
`FileModelS`, and the record header read at a file position is abstracted
into the oracle `recAt` returning (record length in bytes, entry count). -/

/-- One entry of `Reader::recordPositions`: a record's file position, its
total length in bytes and its event count. -/
structure RecordPositionS where
  pos : Nat
  len : Nat
  count : Nat
  deriving Repr, DecidableEq

/-- The default `RecordPositionS` used with `List.getD`. -/
def rp0 : RecordPositionS := RecordPositionS.mk 0 0 0

/-- The file-level inputs `Reader::scanFile` reads: the file-header fields
it consults, the (length, eventCount) pairs decoded from the trailer index
and from the index following the file header, the file size, and the
record header found at a given position for the linear scan. -/
structure FileModelS where
  fileSize : Nat
  fhLength : Nat
  fhHeaderLength : Nat
  fhUserHeaderLength : Nat
  fhIndexLength : Nat
  fhTrailerPosition : Nat
  fhHasTrailerWithIndex : Bool
  fhHasIndex : Bool
  trailerIndex : List (Nat × Nat)
  headerIndex : List (Nat × Nat)
  recAt : Nat → Nat × Nat

/-- The loop of `Reader::forceScanFile`: while the record position is below
`fileSize` minus one header size (56 bytes), read the record header there,
store (position, length, entries), and advance the position by the record
length.  The fuel bounds the iteration count, which the C++ loop does not:
it relies on record lengths keeping the position advancing. -/
def forceScanLoop (m : FileModelS) : Nat → Nat → List RecordPositionS
  | 0, _ => []
  | fuel + 1, recordPosition =>
    if recordPosition < m.fileSize - 56 then
      RecordPositionS.mk recordPosition (m.recAt recordPosition).1
          (m.recAt recordPosition).2 ::
        forceScanLoop m fuel (recordPosition + (m.recAt recordPosition).1)
    else []

/-- `Reader::forceScanFile`: the first record position is just past the
file header, its user header and its index; then scan linearly. -/
def forceScanFile (m : FileModelS) : List RecordPositionS :=
  forceScanLoop m m.fileSize
    (m.fhHeaderLength + m.fhUserHeaderLength + m.fhIndexLength)

/-- The index-reading loop of `Reader::scanFile`: turn the decoded
(length, eventCount) pairs into record positions, starting at the first
record position and advancing by each length. -/
def indexLoop : Nat → List (Nat × Nat) → List RecordPositionS
  | _, [] => []
  | recordPosition, p :: rest =>
    RecordPositionS.mk recordPosition p.1 p.2 ::
      indexLoop (recordPosition + p.1) rest

/-- `Reader::scanFile(force)`: forced (or index-less) files are scanned
linearly; otherwise the trailer index has first priority when
`hasTrailerWithIndex` is set and the trailer position is at least 1,
falling back to the file-header index when `hasIndex` is set and to the
linear scan when it is not; the first record position for the index
branches is the file header's total length. -/
def scanFile (m : FileModelS) (force : Bool) : List RecordPositionS :=
  if force then forceScanFile m
  else if !(m.fhHasTrailerWithIndex || m.fhHasIndex) then forceScanFile m
  else if m.fhHasTrailerWithIndex then
    if m.fhTrailerPosition < 1 then
      if m.fhHasIndex then indexLoop m.fhLength m.headerIndex
      else forceScanFile m
    else indexLoop m.fhLength m.trailerIndex
  else indexLoop m.fhLength m.headerIndex

/-- Modelled from the spec: `FileEventIndex` (not among the sources) is a
prefix-sum structure, and `addEventSize(count)` appends the running total
of event counts, so entry i holds the number of events in records 0..i. -/
def addEventSize (idx : List Nat) (count : Nat) : List Nat :=
  idx ++ [idx.getLastD 0 + count]

/-- The event index built by the scan: both `scanFile` loops call
`eventIndex.addEventSize(entries)` exactly once per stored record, in
record order. -/
def eventIndexOf (rps : List RecordPositionS) : List Nat :=
  rps.foldl (fun idx r => addEventSize idx r.count) []

/-- Total byte length of a run of records. -/
def sumLens (rps : List RecordPositionS) : Nat :=
  (rps.map RecordPositionS.len).sum

/-- Total event count of a run of records. -/
def sumCounts (rps : List RecordPositionS) : Nat :=
  (rps.map RecordPositionS.count).sum

/-- A concrete scan model whose trailer holds a two-record index. -/
def fileModelW : FileModelS :=
  FileModelS.mk 300 60 56 0 4 200 true false [(100, 2), (80, 3)] []
    (fun _ => (0, 0))

/-! ## `Reader::getEvent` and its out-of-bounds guard

The `FileEventIndex` cursor class is not among the sources; per the spec
it is a prefix-sum cursor whose `setEvent(i)` reports whether the target
event lies in a different record.  Its cursor, together with the
currently loaded record, is the reader state the guard must leave
untouched. -/

/-- The observable reader state used by `Reader::getEvent`: the event
count, the event-ordinal-to-record map and per-record entry counts of the
index, the shared sequential cursor (current event and record), and the
currently loaded record with its entry count. -/
structure ReaderState where
  maxEvents : Nat
  recOf : Nat → Nat
  entriesOf : Nat → Nat
  eventAt : Nat → List Nat
  curEvent : Nat
  curRecord : Nat
  loadedRecord : Nat
  loadedEntries : Nat

/-- Modelled from the spec: `FileEventIndex::setEvent(i)` moves the shared
cursor to event i and reports whether that lands in a different record. -/
def setEvent (r : ReaderState) (i : Nat) : Bool × ReaderState :=
  (r.recOf i != r.curRecord,
   ReaderState.mk r.maxEvents r.recOf r.entriesOf r.eventAt i (r.recOf i)
     r.loadedRecord r.loadedEntries)

/-- `Reader::readRecord(n)`: load record n into the input record stream. -/
def readRecord (r : ReaderState) (n : Nat) : ReaderState :=
  ReaderState.mk r.maxEvents r.recOf r.entriesOf r.eventAt r.curEvent
    r.curRecord n (r.entriesOf n)

/-- `Reader::getEvent(index)`: the out-of-bounds check comes first and
returns null without touching any state; otherwise the cursor moves, the
target record is loaded when needed (record change, or nothing loaded
yet), and the event bytes are returned. -/
def getEvent (r : ReaderState) (index : Int) :
    Option (List Nat) × ReaderState :=
  if index < 0 ∨ (r.maxEvents : Int) ≤ index then (none, r)
  else
    let s := setEvent r index.toNat
    let r1 := if s.1 then readRecord s.2 s.2.curRecord else s.2
    let r2 := if r1.loadedEntries = 0 then readRecord r1 r1.curRecord else r1
    (some (r2.eventAt r2.curEvent), r2)

/-- A concrete reader state with two events, a live cursor and a loaded
record. -/
def readerW : ReaderState :=
  ReaderState.mk 2 (fun _ => 0) (fun _ => 2) (fun i => [i, 7]) 1 0 0 2

/-! ## The ring-based multi-thread writer

Modelled from the spec: the `WriterMT` / `RecordSupply` implementation is
not among the sources (only named in the build-file listing), so the
Disruptor-style gating rules are modelled as a labelled transition system
over ring states.  `recs` is the fixed sequence of filled records in
submission order and `build` the (deterministic) compression of one
record's bytes; `N` is the number of compression workers and `R` the ring
size. -/

/-- A ring-writer state: how many slots the producer has published, which
slot indices have been compressed, the writer's next in-order sequence,
and the bytes written so far. -/
structure RingState where
  produced : Nat
  builtSet : List Nat
  writerSeq : Nat
  output : List Nat
  deriving Repr, DecidableEq

/-- The initial ring state: nothing published, compressed or written. -/
def ringInit : RingState := RingState.mk 0 [] 0 []

/-- Modelled from the spec, one step of the ring writer:
the producer publishes the next record once the writer has released the
slot one ring-size back; compressor k builds any published slot i of its
stride (i mod N = k) that is not yet built; the writer consumes slot
`writerSeq` only — strictly in submission order — once it is built,
appending its compressed bytes to the output. -/
inductive RingStep (N R : Nat) (recs : List (List Nat))
    (build : List Nat → List Nat) : RingState → RingState → Prop
  | produce (s : RingState) (h1 : s.produced < recs.length)
      (h2 : s.produced < s.writerSeq + R) :
      RingStep N R recs build s
        (RingState.mk (s.produced + 1) s.builtSet s.writerSeq s.output)
  | compress (s : RingState) (i k : Nat) (hk : k < N) (hs : i % N = k)
      (h1 : i < s.produced) (h2 : i ∉ s.builtSet) :
      RingStep N R recs build s
        (RingState.mk s.produced (i :: s.builtSet) s.writerSeq s.output)
  | write (s : RingState) (h1 : s.writerSeq ∈ s.builtSet)
      (h2 : s.writerSeq < recs.length) :
      RingStep N R recs build s
        (RingState.mk s.produced s.builtSet (s.writerSeq + 1)
          (s.output ++ build (recs.getD s.writerSeq [])))

/-- Two one-word records for the concrete ring trace. -/
def recsW : List (List Nat) := [[1], [2]]

/-- A concrete deterministic record compression: prepend the length. -/
def buildW : List Nat → List Nat := fun l => l.length :: l

/-- The ring state after publishing both records of `recsW`, compressing
them out of order, and writing both in order. -/
def ringFinalW : RingState := RingState.mk 2 [0, 1] 2 [1, 1, 1, 2]

/-! ## Theorems: bytes and words -/

theorem byteOf_lt (w k : Nat) : byteOf w k < 256 := Nat.mod_lt _ (by norm_num)

theorem bswap32_lt (w : Nat) : bswap32 w < 4294967296 := by
  have h0 := byteOf_lt w 0
  have h1 := byteOf_lt w 1
  have h2 := byteOf_lt w 2
  have h3 := byteOf_lt w 3
  unfold bswap32
  omega

theorem byte_decomp {w : Nat} (h : w < 4294967296) :
    w = byteOf w 3 * 16777216 + byteOf w 2 * 65536 + byteOf w 1 * 256 + byteOf w 0 := by
  unfold byteOf
  norm_num
  omega

theorem bswap32_of_bytes {b0 b1 b2 b3 : Nat}
    (h0 : b0 < 256) (h1 : b1 < 256) (h2 : b2 < 256) (h3 : b3 < 256) :
    bswap32 (b3 * 16777216 + b2 * 65536 + b1 * 256 + b0) =
      b0 * 16777216 + b1 * 65536 + b2 * 256 + b3 := by
  unfold bswap32 byteOf
  norm_num
  omega

theorem bswap32_bswap32 {w : Nat} (h : w < 4294967296) : bswap32 (bswap32 w) = w := by
  have h0 := byteOf_lt w 0
  have h1 := byteOf_lt w 1
  have h2 := byteOf_lt w 2
  have h3 := byteOf_lt w 3
  have hw := byte_decomp h
  rw [hw, bswap32_of_bytes h0 h1 h2 h3, bswap32_of_bytes h3 h2 h1 h0]

theorem putw_lt (ord : Bool) (v : Nat) : putw ord v < 4294967296 := by
  unfold putw
  cases ord
  · simpa using bswap32_lt (v % 4294967296)
  · simpa using Nat.mod_lt v (by norm_num)

theorem getw_putw (o2 o1 : Bool) (v : Nat) :
    getw o2 (putw o1 v) = if o2 = o1 then v % 4294967296 else bswap32 (v % 4294967296) := by
  cases o1 <;> cases o2 <;>
    simp [getw, putw, bswap32_bswap32 (Nat.mod_lt v (by norm_num : 0 < 4294967296))]

theorem getw_putw_same (o : Bool) {v : Nat} (h : v < 4294967296) :
    getw o (putw o v) = v := by
  rw [getw_putw, if_pos rfl, Nat.mod_eq_of_lt h]

theorem getl_putl (o : Bool) {v : Nat} (h : v < 18446744073709551616) :
    getl o (putl o v).1 (putl o v).2 = v := by
  have h1 : v % 18446744073709551616 = v := Nat.mod_eq_of_lt h
  cases o <;>
    simp only [getl, putl, h1, if_true, if_false, Bool.false_eq_true,
      bswap32_bswap32 (Nat.mod_lt v (by norm_num : 0 < 4294967296)),
      bswap32_bswap32 (Nat.div_lt_of_lt_mul (by omega : v < 4294967296 * 4294967296))] <;>
    omega

/-! ## Theorems: swap primitives -/

theorem swap16w_lt (w : Nat) : swap16w w < 4294967296 := by
  have h0 := byteOf_lt w 0
  have h1 := byteOf_lt w 1
  have h2 := byteOf_lt w 2
  have h3 := byteOf_lt w 3
  unfold swap16w
  omega

theorem swap16w_of_bytes {b0 b1 b2 b3 : Nat}
    (h0 : b0 < 256) (h1 : b1 < 256) (h2 : b2 < 256) (h3 : b3 < 256) :
    swap16w (b3 * 16777216 + b2 * 65536 + b1 * 256 + b0) =
      b2 * 16777216 + b3 * 65536 + b0 * 256 + b1 := by
  unfold swap16w byteOf
  norm_num
  omega

theorem swap16w_swap16w {w : Nat} (h : w < 4294967296) : swap16w (swap16w w) = w := by
  have h0 := byteOf_lt w 0
  have h1 := byteOf_lt w 1
  have h2 := byteOf_lt w 2
  have h3 := byteOf_lt w 3
  have hw := byte_decomp h
  rw [hw, swap16w_of_bytes h0 h1 h2 h3, swap16w_of_bytes h1 h0 h3 h2]

theorem swap_int32_t_length (l : List Nat) : (swap_int32_t l).length = l.length := by
  simp [swap_int32_t]

theorem swap_int16_t_length (l : List Nat) : (swap_int16_t l).length = l.length := by
  simp [swap_int16_t]

theorem swap_int64_t_length : ∀ l : List Nat, (swap_int64_t l).length = l.length
  | [] => rfl
  | [_] => rfl
  | _ :: _ :: rest => by
      simp [swap_int64_t, swap_int64_t_length rest]

theorem swap_int32_t_involutive (l : List Nat) (h : ∀ w ∈ l, w < 4294967296) :
    swap_int32_t (swap_int32_t l) = l := by
  induction l with
  | nil => rfl
  | cons a rest ih =>
      simp only [swap_int32_t, List.map_cons, List.map_map] at *
      have ha : a < 4294967296 := h a (by simp)
      simp [Function.comp, bswap32_bswap32 ha]
      have := ih (fun w hw => h w (by simp [hw]))
      simpa [Function.comp] using this

theorem swap_int16_t_involutive (l : List Nat) (h : ∀ w ∈ l, w < 4294967296) :
    swap_int16_t (swap_int16_t l) = l := by
  induction l with
  | nil => rfl
  | cons a rest ih =>
      have ha : a < 4294967296 := h a (by simp)
      simp only [swap_int16_t, List.map_cons] at *
      rw [swap16w_swap16w ha]
      have := ih (fun w hw => h w (by simp [hw]))
      simpa using this

theorem swap_int64_t_involutive :
    ∀ l : List Nat, (∀ w ∈ l, w < 4294967296) → swap_int64_t (swap_int64_t l) = l
  | [], _ => rfl
  | [_], _ => rfl
  | a :: b :: rest, h => by
      have ha : a < 4294967296 := h a (by simp)
      have hb : b < 4294967296 := h b (by simp)
      simp only [swap_int64_t]
      rw [bswap32_bswap32 ha, bswap32_bswap32 hb,
        swap_int64_t_involutive rest (fun w hw => h w (by simp [hw]))]

theorem payloadSwap_length (t : Nat) (ws : List Nat) :
    (payloadSwap t ws).length = ws.length := by
  unfold payloadSwap
  split_ifs <;>
    simp [swap_int32_t_length, swap_int16_t_length, swap_int64_t_length]

theorem payloadSwap_involutive (t : Nat) (ws : List Nat)
    (h : ∀ w ∈ ws, w < 4294967296) :
    payloadSwap t (payloadSwap t ws) = ws := by
  unfold payloadSwap
  split_ifs <;>
    simp [swap_int32_t_involutive ws h, swap_int16_t_involutive ws h,
      swap_int64_t_involutive ws h]

/-! ## Theorems: header-word decoding arithmetic -/

theorem bank_type_decode {tag pad t num : Nat} (htag : tag < 65536) (hpad : pad < 4)
    (ht : t < 64) (hnum : num < 256) :
    ((tag * 65536 + pad * 16384 + t * 256 + num) >>> 8) &&& 0x3f = t := by
  have hm := Nat.and_pow_two_sub_one_eq_mod
    ((tag * 65536 + pad * 16384 + t * 256 + num) >>> 8) 6
  rw [Nat.shiftRight_eq_div_pow] at hm ⊢
  norm_num at hm ⊢
  rw [hm]
  omega

theorem seg_type_decode {tag pad t len : Nat} (htag : tag < 256) (hpad : pad < 4)
    (ht : t < 64) (hlen : len < 65536) :
    ((tag * 16777216 + pad * 4194304 + t * 65536 + len) >>> 16) &&& 0x3f = t := by
  have hm := Nat.and_pow_two_sub_one_eq_mod
    ((tag * 16777216 + pad * 4194304 + t * 65536 + len) >>> 16) 6
  rw [Nat.shiftRight_eq_div_pow] at hm ⊢
  norm_num at hm ⊢
  rw [hm]
  omega

theorem seg_len_decode {tag pad t len : Nat} (htag : tag < 256) (hpad : pad < 4)
    (ht : t < 64) (hlen : len < 65536) :
    (tag * 16777216 + pad * 4194304 + t * 65536 + len) &&& 0xffff = len := by
  have hm := Nat.and_pow_two_sub_one_eq_mod
    (tag * 16777216 + pad * 4194304 + t * 65536 + len) 16
  norm_num at hm ⊢
  rw [hm]
  omega

theorem tagseg_type_decode {tag t len : Nat} (htag : tag < 4096)
    (ht : t < 16) (hlen : len < 65536) :
    ((tag * 1048576 + t * 65536 + len) >>> 16) &&& 0xf = t := by
  have hm := Nat.and_pow_two_sub_one_eq_mod ((tag * 1048576 + t * 65536 + len) >>> 16) 4
  rw [Nat.shiftRight_eq_div_pow] at hm ⊢
  norm_num at hm ⊢
  rw [hm]
  omega

theorem tagseg_len_decode {tag t len : Nat} (htag : tag < 4096)
    (ht : t < 16) (hlen : len < 65536) :
    (tag * 1048576 + t * 65536 + len) &&& 0xffff = len := by
  have hm := Nat.and_pow_two_sub_one_eq_mod (tag * 1048576 + t * 65536 + len) 16
  norm_num at hm ⊢
  rw [hm]
  omega

/-! ## Theorems: serialization lengths -/

mutual

theorem serS_length (hle : Bool) : (s : EvStruct) → (serS hle s).length = structWords s
  | .mk k tag pad num c => by
      cases k <;>
        simp [serS, headWords, structWords, serC_length hle c] <;>
        omega

theorem serC_length (hle : Bool) : (c : EvContent) → (serC hle c).length = contentWords c
  | .prim _ _ => rfl
  | .kids _ _ f => by
      simp [serC, contentWords, serF_length hle f]

theorem serF_length (hle : Bool) : (f : EvForest) → (serF hle f).length = forestWords f
  | .nil => rfl
  | .cons s f => by
      simp [serF, forestWords, serS_length hle s, serF_length hle f]

end

mutual

theorem serSx_length (hle : Bool) : (s : EvStruct) → (serSx hle s).length = structWords s
  | .mk k tag pad num c => by
      cases k <;>
        simp [serSx, headWords, structWords, serCx_length hle c] <;>
        omega

theorem serCx_length (hle : Bool) : (c : EvContent) → (serCx hle c).length = contentWords c
  | .prim t ws => by
      simp [serCx, contentWords, payloadSwap_length]
  | .kids _ _ f => by
      simp [serCx, contentWords, serFx_length hle f]

theorem serFx_length (hle : Bool) : (f : EvForest) → (serFx hle f).length = forestWords f
  | .nil => rfl
  | .cons s f => by
      simp [serFx, forestWords, serSx_length hle s, serFx_length hle f]

end

/-! ## Theorems: the swapper maps one endian encoding to the other -/

theorem getw_double_bswap (hle : Bool) {v : Nat} (h : v < 4294967296) :
    getw hle (bswap32 (bswap32 (putw hle v))) = v := by
  rw [bswap32_bswap32 (putw_lt hle v), getw_putw_same hle h]

theorem double_bswap_putw (hle : Bool) (v : Nat) :
    bswap32 (bswap32 (putw hle v)) = putw hle v :=
  bswap32_bswap32 (putw_lt hle v)

mutual

theorem swapS_ser (hle : Bool) :
    (s : EvStruct) → ∀ fuel, wfS s = true → fuelS s ≤ fuel →
      swapStruct (kindOf s) hle fuel (serSx hle s) true = some (serS hle s) ∧
      swapStruct (kindOf s) hle fuel (serS hle s) false = some (serSx hle s)
  | .mk k tag pad num c => by
    intro fuel hwf hfuel
    cases fuel with
    | zero =>
        exfalso
        simp [fuelS] at hfuel
    | succ fuel =>
    have hfc : fuelC c ≤ fuel := by
      simp only [fuelS] at hfuel
      omega
    cases k with
    | bank =>
        simp only [wfS, Bool.and_eq_true, decide_eq_true_eq] at hwf
        obtain ⟨hwc, ⟨⟨⟨htag, hpad⟩, hnum⟩, ht⟩, hw0⟩ := hwf
        have hk := swapC_ser hle c fuel hwc hfc
        have hw1 : tag * 65536 + pad * 16384 + typeOf c * 256 + num < 4294967296 := by
          omega
        refine ⟨?_, ?_⟩
        · simp only [kindOf, swapStruct, serSx, headWords, List.map_cons, List.map_nil,
            List.cons_append, List.nil_append, swap_bank, double_bswap_putw,
            getw_putw_same hle hw0, getw_putw_same hle hw1, serCx_length,
            bank_type_decode htag hpad ht hnum, eq_self_iff_true, ite_true, Bool.false_eq_true, if_false]
          rw [hk.1]
          simp [serS, headWords]
        · simp only [kindOf, swapStruct, serS, headWords, List.map_cons, List.map_nil,
            List.cons_append, List.nil_append, swap_bank, double_bswap_putw,
            getw_putw_same hle hw0, getw_putw_same hle hw1, serC_length,
            bank_type_decode htag hpad ht hnum, eq_self_iff_true, ite_true, Bool.false_eq_true, if_false]
          rw [hk.2]
          simp [serSx, headWords]
    | seg =>
        simp only [wfS, Bool.and_eq_true, decide_eq_true_eq, beq_iff_eq] at hwf
        obtain ⟨hwc, ⟨⟨⟨htag, hpad⟩, hnum⟩, ht⟩, hlen⟩ := hwf
        have hk := swapC_ser hle c fuel hwc hfc
        have hw0 : tag * 16777216 + pad * 4194304 + typeOf c * 65536 + contentWords c <
            4294967296 := by
          omega
        refine ⟨?_, ?_⟩
        · simp only [kindOf, swapStruct, serSx, headWords, List.map_cons, List.map_nil,
            List.cons_append, List.nil_append, swap_segment, double_bswap_putw,
            getw_putw_same hle hw0, serCx_length,
            seg_type_decode htag hpad ht hlen, seg_len_decode htag hpad ht hlen,
            eq_self_iff_true, ite_true, Bool.false_eq_true, if_false]
          rw [hk.1]
          simp [serS, headWords]
        · simp only [kindOf, swapStruct, serS, headWords, List.map_cons, List.map_nil,
            List.cons_append, List.nil_append, swap_segment, double_bswap_putw,
            getw_putw_same hle hw0, serC_length,
            seg_type_decode htag hpad ht hlen, seg_len_decode htag hpad ht hlen,
            eq_self_iff_true, ite_true, Bool.false_eq_true, if_false]
          rw [hk.2]
          simp [serSx, headWords]
    | tagseg =>
        simp only [wfS, Bool.and_eq_true, decide_eq_true_eq, beq_iff_eq] at hwf
        obtain ⟨hwc, ⟨⟨⟨htag, hpad⟩, hnum⟩, ht⟩, hlen⟩ := hwf
        have hk := swapC_ser hle c fuel hwc hfc
        have hw0 : tag * 1048576 + typeOf c * 65536 + contentWords c < 4294967296 := by
          omega
        refine ⟨?_, ?_⟩
        · simp only [kindOf, swapStruct, serSx, headWords, List.map_cons, List.map_nil,
            List.cons_append, List.nil_append, swap_tagsegment, double_bswap_putw,
            getw_putw_same hle hw0, serCx_length,
            tagseg_type_decode htag ht hlen, tagseg_len_decode htag ht hlen,
            eq_self_iff_true, ite_true, Bool.false_eq_true, if_false]
          rw [hk.1]
          simp [serS, headWords]
        · simp only [kindOf, swapStruct, serS, headWords, List.map_cons, List.map_nil,
            List.cons_append, List.nil_append, swap_tagsegment, double_bswap_putw,
            getw_putw_same hle hw0, serC_length,
            tagseg_type_decode htag ht hlen, tagseg_len_decode htag ht hlen,
            eq_self_iff_true, ite_true, Bool.false_eq_true, if_false]
          rw [hk.2]
          simp [serSx, headWords]

theorem swapC_ser (hle : Bool) :
    (c : EvContent) → ∀ fuel, wfC c = true → fuelC c ≤ fuel →
      swap_data hle fuel (typeOf c) (serCx hle c) true = some (serC hle c) ∧
      swap_data hle fuel (typeOf c) (serC hle c) false = some (serCx hle c)
  | .prim t ws => by
    intro fuel hwf hfc
    cases fuel with
    | zero =>
        exfalso
        simp [fuelC] at hfc
    | succ fuel =>
    simp only [wfC, primOk, Bool.and_eq_true, Bool.not_eq_true', Bool.or_eq_false_iff,
      beq_eq_false_iff_ne, ne_eq, List.all_eq_true, decide_eq_true_eq] at hwf
    obtain ⟨⟨⟨⟨⟨⟨⟨hc1, hc2⟩, hc3⟩, hc4⟩, hc5⟩, hc6⟩, hb⟩, _⟩ := hwf
    simp only [typeOf, serCx, serC]
    by_cases h1 : t = 0x1 ∨ t = 0x2 ∨ t = 0xb
    · constructor
      · simp only [swap_data, if_pos h1, payloadSwap, if_pos h1]
        rw [swap_int32_t_involutive ws hb]
      · simp only [swap_data, if_pos h1, payloadSwap, if_pos h1]
    by_cases h2 : t = 0x0 ∨ t = 0x3 ∨ t = 0x6 ∨ t = 0x7
    · have hps : payloadSwap t ws = ws := by
        unfold payloadSwap
        rw [if_neg h1, if_neg (by omega), if_neg (by omega)]
      constructor
      · simp only [swap_data, if_neg h1, if_pos h2, hps]
      · simp only [swap_data, if_neg h1, if_pos h2, hps]
    by_cases h3 : t = 0x4 ∨ t = 0x5
    · have hps : payloadSwap t ws = swap_int16_t ws := by
        unfold payloadSwap
        rw [if_neg h1, if_pos h3]
      constructor
      · simp only [swap_data, if_neg h1, if_neg h2, if_pos h3, hps]
        rw [swap_int16_t_involutive ws hb]
      · simp only [swap_data, if_neg h1, if_neg h2, if_pos h3, hps]
    by_cases h4 : t = 0x8 ∨ t = 0x9 ∨ t = 0xa
    · have hps : payloadSwap t ws = swap_int64_t ws := by
        unfold payloadSwap
        rw [if_neg h1, if_neg h3, if_pos h4]
      constructor
      · simp only [swap_data, if_neg h1, if_neg h2, if_neg h3, if_pos h4, hps]
        rw [swap_int64_t_involutive ws hb]
      · simp only [swap_data, if_neg h1, if_neg h2, if_neg h3, if_pos h4, hps]
    have hps : payloadSwap t ws = ws := by
      unfold payloadSwap
      rw [if_neg h1, if_neg h3, if_neg h4]
    have hno : ¬ t = 0xf := by omega
    have hne : ¬ (t = 0xe ∨ t = 0x10) := by omega
    have hnd : ¬ (t = 0xd ∨ t = 0x20) := by omega
    have hnc : ¬ t = 0xc := by omega
    constructor
    · simp only [swap_data, if_neg h1, if_neg h2, if_neg h3, if_neg h4, if_neg hno,
        if_neg hne, if_neg hnd, if_neg hnc, hps]
    · simp only [swap_data, if_neg h1, if_neg h2, if_neg h3, if_neg h4, if_neg hno,
        if_neg hne, if_neg hnd, if_neg hnc, hps]
  | .kids t k f => by
    intro fuel hwf hfc
    cases fuel with
    | zero =>
        exfalso
        simp [fuelC] at hfc
    | succ fuel =>
    have hff : fuelF f ≤ fuel := by
      simp only [fuelC] at hfc
      omega
    simp only [wfC, Bool.and_eq_true] at hwf
    obtain ⟨hcode, hwff⟩ := hwf
    have hk := swapF_ser hle k f fuel hwff hff
    cases k with
    | bank =>
        simp only [kindCode, Bool.or_eq_true, beq_iff_eq] at hcode
        rcases hcode with rfl | rfl <;>
          constructor <;>
          · simp only [typeOf, serCx, serC, swap_data]
            norm_num
            first
              | exact hk.1
              | exact hk.2
    | seg =>
        simp only [kindCode, Bool.or_eq_true, beq_iff_eq] at hcode
        rcases hcode with rfl | rfl <;>
          constructor <;>
          · simp only [typeOf, serCx, serC, swap_data]
            norm_num
            first
              | exact hk.1
              | exact hk.2
    | tagseg =>
        simp only [kindCode, beq_iff_eq] at hcode
        subst hcode
        constructor <;>
        · simp only [typeOf, serCx, serC, swap_data]
          norm_num
          first
            | exact hk.1
            | exact hk.2

theorem swapF_ser (hle : Bool) (k : SKind) :
    (f : EvForest) → ∀ fuel, wfF k f = true → fuelF f ≤ fuel →
      loopOf k hle fuel (serFx hle f) true = some (serF hle f) ∧
      loopOf k hle fuel (serF hle f) false = some (serFx hle f)
  | .nil => by
    intro fuel _ hfl
    cases fuel with
    | zero =>
        exfalso
        simp [fuelF] at hfl
    | succ fuel =>
        cases k <;>
          simp [loopOf, serF, serFx, bankLoop, segLoop, tagLoop]
  | .cons s f => by
    intro fuel hwf hfl
    cases fuel with
    | zero =>
        exfalso
        simp [fuelF] at hfl
    | succ fuel =>
    simp only [wfF, Bool.and_eq_true, beq_iff_eq] at hwf
    obtain ⟨⟨hks, hwfs⟩, hwff⟩ := hwf
    have hfs : fuelS s ≤ fuel := by
      simp only [fuelF] at hfl
      omega
    have hffl : fuelF f ≤ fuel := by
      simp only [fuelF] at hfl
      omega
    have ihs := swapS_ser hle s fuel hwfs hfs
    have ihf := swapF_ser hle k f fuel hwff hffl
    obtain ⟨k2, tag, pad, num, c⟩ := s
    simp only [kindOf] at hks
    subst hks
    cases k2 with
    | bank =>
        simp only [wfS, Bool.and_eq_true, decide_eq_true_eq] at hwfs
        obtain ⟨hwc, ⟨⟨⟨htag, hpad⟩, hnum⟩, ht⟩, hw0⟩ := hwfs
        simp only [kindOf, swapStruct] at ihs
        simp only [loopOf] at ihf
        have hw1 : tag * 65536 + pad * 16384 + typeOf c * 256 + num < 4294967296 := by
          omega
        have htk : ∀ l2 : List Nat, (serCx hle c ++ l2).take (contentWords c) =
            serCx hle c := fun l2 => by
          rw [← serCx_length hle c]
          exact List.take_left _ _
        have hdk : ∀ l2 : List Nat, (serCx hle c ++ l2).drop (contentWords c) = l2 :=
          fun l2 => by
          rw [← serCx_length hle c]
          exact List.drop_left _ _
        have htk2 : ∀ l2 : List Nat, (serC hle c ++ l2).take (contentWords c) =
            serC hle c := fun l2 => by
          rw [← serC_length hle c]
          exact List.take_left _ _
        have hdk2 : ∀ l2 : List Nat, (serC hle c ++ l2).drop (contentWords c) = l2 :=
          fun l2 => by
          rw [← serC_length hle c]
          exact List.drop_left _ _
        refine ⟨?_, ?_⟩
        · simp only [loopOf, serFx, serSx, headWords, List.map_cons, List.map_nil,
            List.cons_append, List.nil_append, List.append_assoc, List.append_eq,
            bankLoop, double_bswap_putw, getw_putw_same hle hw0,
            eq_self_iff_true, ite_true, if_true, Bool.false_eq_true, if_false]
          have hsucc : contentWords c + 1 + 1 = Nat.succ (Nat.succ (contentWords c)) := rfl
          rw [hsucc]
          simp only [List.take_succ_cons, List.drop_succ_cons, htk, hdk]
          have hchild := ihs.1
          simp only [serSx, headWords, List.map_cons, List.map_nil, List.cons_append,
            List.nil_append, List.append_eq] at hchild
          rw [hchild]
          rw [ihf.1]
          simp [serF, serS, headWords]
        · simp only [loopOf, serF, serS, headWords, List.map_cons, List.map_nil,
            List.cons_append, List.nil_append, List.append_assoc, List.append_eq,
            bankLoop, getw_putw_same hle hw0,
            eq_self_iff_true, ite_true, if_true, Bool.false_eq_true, if_false]
          have hsucc : contentWords c + 1 + 1 = Nat.succ (Nat.succ (contentWords c)) := rfl
          rw [hsucc]
          simp only [List.take_succ_cons, List.drop_succ_cons, htk2, hdk2]
          have hchild := ihs.2
          simp only [serS, headWords, List.map_cons, List.map_nil, List.cons_append,
            List.nil_append, List.append_eq] at hchild
          rw [hchild]
          rw [ihf.2]
          simp [serFx, serSx, headWords]
    | seg =>
        simp only [wfS, Bool.and_eq_true, decide_eq_true_eq, beq_iff_eq] at hwfs
        obtain ⟨hwc, ⟨⟨⟨htag, hpad⟩, hnum⟩, ht⟩, hlen⟩ := hwfs
        simp only [kindOf, swapStruct] at ihs
        simp only [loopOf] at ihf
        have hw0 : tag * 16777216 + pad * 4194304 + typeOf c * 65536 + contentWords c <
            4294967296 := by
          omega
        have htk : ∀ l2 : List Nat, (serCx hle c ++ l2).take (contentWords c) =
            serCx hle c := fun l2 => by
          rw [← serCx_length hle c]
          exact List.take_left _ _
        have hdk : ∀ l2 : List Nat, (serCx hle c ++ l2).drop (contentWords c) = l2 :=
          fun l2 => by
          rw [← serCx_length hle c]
          exact List.drop_left _ _
        have htk2 : ∀ l2 : List Nat, (serC hle c ++ l2).take (contentWords c) =
            serC hle c := fun l2 => by
          rw [← serC_length hle c]
          exact List.take_left _ _
        have hdk2 : ∀ l2 : List Nat, (serC hle c ++ l2).drop (contentWords c) = l2 :=
          fun l2 => by
          rw [← serC_length hle c]
          exact List.drop_left _ _
        refine ⟨?_, ?_⟩
        · simp only [loopOf, serFx, serSx, headWords, List.map_cons, List.map_nil,
            List.cons_append, List.nil_append, List.append_assoc, List.append_eq,
            segLoop, double_bswap_putw, getw_putw_same hle hw0,
            seg_len_decode htag hpad ht hlen,
            eq_self_iff_true, ite_true, if_true, Bool.false_eq_true, if_false]
          simp only [List.take_succ_cons, List.drop_succ_cons, htk, hdk]
          have hchild := ihs.1
          simp only [serSx, headWords, List.map_cons, List.map_nil, List.cons_append,
            List.nil_append, List.append_eq] at hchild
          rw [hchild]
          rw [ihf.1]
          simp [serF, serS, headWords]
        · simp only [loopOf, serF, serS, headWords, List.map_cons, List.map_nil,
            List.cons_append, List.nil_append, List.append_assoc, List.append_eq,
            segLoop, getw_putw_same hle hw0, seg_len_decode htag hpad ht hlen,
            eq_self_iff_true, ite_true, if_true, Bool.false_eq_true, if_false]
          simp only [List.take_succ_cons, List.drop_succ_cons, htk2, hdk2]
          have hchild := ihs.2
          simp only [serS, headWords, List.map_cons, List.map_nil, List.cons_append,
            List.nil_append, List.append_eq] at hchild
          rw [hchild]
          rw [ihf.2]
          simp [serFx, serSx, headWords]
    | tagseg =>
        simp only [wfS, Bool.and_eq_true, decide_eq_true_eq, beq_iff_eq] at hwfs
        obtain ⟨hwc, ⟨⟨⟨htag, hpad⟩, hnum⟩, ht⟩, hlen⟩ := hwfs
        simp only [kindOf, swapStruct] at ihs
        simp only [loopOf] at ihf
        have hw0 : tag * 1048576 + typeOf c * 65536 + contentWords c < 4294967296 := by
          omega
        have htk : ∀ l2 : List Nat, (serCx hle c ++ l2).take (contentWords c) =
            serCx hle c := fun l2 => by
          rw [← serCx_length hle c]
          exact List.take_left _ _
        have hdk : ∀ l2 : List Nat, (serCx hle c ++ l2).drop (contentWords c) = l2 :=
          fun l2 => by
          rw [← serCx_length hle c]
          exact List.drop_left _ _
        have htk2 : ∀ l2 : List Nat, (serC hle c ++ l2).take (contentWords c) =
            serC hle c := fun l2 => by
          rw [← serC_length hle c]
          exact List.take_left _ _
        have hdk2 : ∀ l2 : List Nat, (serC hle c ++ l2).drop (contentWords c) = l2 :=
          fun l2 => by
          rw [← serC_length hle c]
          exact List.drop_left _ _
        refine ⟨?_, ?_⟩
        · simp only [loopOf, serFx, serSx, headWords, List.map_cons, List.map_nil,
            List.cons_append, List.nil_append, List.append_assoc, List.append_eq,
            tagLoop, double_bswap_putw, getw_putw_same hle hw0,
            tagseg_len_decode htag ht hlen,
            eq_self_iff_true, ite_true, if_true, Bool.false_eq_true, if_false]
          simp only [List.take_succ_cons, List.drop_succ_cons, htk, hdk]
          have hchild := ihs.1
          simp only [serSx, headWords, List.map_cons, List.map_nil, List.cons_append,
            List.nil_append, List.append_eq] at hchild
          rw [hchild]
          rw [ihf.1]
          simp [serF, serS, headWords]
        · simp only [loopOf, serF, serS, headWords, List.map_cons, List.map_nil,
            List.cons_append, List.nil_append, List.append_assoc, List.append_eq,
            tagLoop, getw_putw_same hle hw0, tagseg_len_decode htag ht hlen,
            eq_self_iff_true, ite_true, if_true, Bool.false_eq_true, if_false]
          simp only [List.take_succ_cons, List.drop_succ_cons, htk2, hdk2]
          have hchild := ihs.2
          simp only [serS, headWords, List.map_cons, List.map_nil, List.cons_append,
            List.nil_append, List.append_eq] at hchild
          rw [hchild]
          rw [ihf.2]
          simp [serFx, serSx, headWords]

end

/-! ## Theorems: padding and bit-info arithmetic -/

theorem getPadding_eq (n : Nat) : getPadding n = (4 - n % 4) % 4 := by
  unfold getPadding padValue
  have h : n % 4 < 4 := Nat.mod_lt n (by norm_num)
  interval_cases h4 : n % 4 <;> simp [List.getD]

theorem getWords_eq (n : Nat) : getWords n = (n + 3) / 4 := by
  simp only [getWords, getPadding_eq]
  split <;> omega

theorem getPadding_lt (n : Nat) : getPadding n < 4 := by
  rw [getPadding_eq]
  omega

theorem getBitInfoWord_eq (h : RecordHeaderS)
    (ha : h.userHeaderLengthPadding < 4) (hb : h.dataLengthPadding < 4)
    (hc : h.compressedDataLengthPadding < 4) :
    getBitInfoWord h = h.headerVersion % 256 + h.userHeaderLengthPadding * 1048576 +
      h.dataLengthPadding * 4194304 + h.compressedDataLengthPadding * 16777216 := by
  set a := h.userHeaderLengthPadding with hadef
  set b := h.dataLengthPadding with hbdef
  set c := h.compressedDataLengthPadding with hcdef
  have hv : h.headerVersion &&& 0x000000FF = h.headerVersion % 256 := by
    simpa using Nat.and_pow_two_sub_one_eq_mod h.headerVersion 8
  have s1 : a <<< 20 = 2 ^ 20 * a := by rw [Nat.shiftLeft_eq, Nat.mul_comm]
  have s2 : b <<< 22 = 2 ^ 22 * b := by rw [Nat.shiftLeft_eq, Nat.mul_comm]
  have s3 : c <<< 24 = 2 ^ 24 * c := by rw [Nat.shiftLeft_eq, Nat.mul_comm]
  have lb1 : 2 ^ 20 * a < 2 ^ 22 := by
    norm_num
    omega
  have e1 : (2 ^ 20 * a) ||| (2 ^ 22 * b) = 2 ^ 22 * b + 2 ^ 20 * a := by
    rw [Nat.lor_comm]
    exact (Nat.mul_add_lt_is_or lb1 b).symm
  have lb2 : 2 ^ 22 * b + 2 ^ 20 * a < 2 ^ 24 := by
    norm_num
    omega
  have e2 : (2 ^ 22 * b + 2 ^ 20 * a) ||| (2 ^ 24 * c) =
      2 ^ 24 * c + (2 ^ 22 * b + 2 ^ 20 * a) := by
    rw [Nat.lor_comm]
    exact (Nat.mul_add_lt_is_or lb2 c).symm
  have hm : 2 ^ 24 * c + (2 ^ 22 * b + 2 ^ 20 * a) = 2 ^ 20 * (16 * c + 4 * b + a) := by
    ring
  have lb3 : h.headerVersion % 256 < 2 ^ 20 := by
    have := Nat.mod_lt h.headerVersion (show 0 < 256 by norm_num)
    norm_num
    omega
  have e3 : (2 ^ 20 * (16 * c + 4 * b + a)) ||| (h.headerVersion % 256) =
      2 ^ 20 * (16 * c + 4 * b + a) + h.headerVersion % 256 := by
    exact (Nat.mul_add_lt_is_or lb3 _).symm
  unfold getBitInfoWord
  rw [← hadef, ← hbdef, ← hcdef, hv, s1, s2, s3, e1, e2, hm, e3]
  ring

theorem mkHeader_eq (L R HL E IL V UL DL CL CT U1 U2 : Nat) :
    mkHeader L R HL E IL V UL DL CL CT U1 U2 =
      { recordLength := L, recordNumber := R, entries := E, headerLength := HL,
        userHeaderLength := UL, indexLength := IL, dataLength := DL,
        compressedDataLength := CL, compressionType := CT,
        userHeaderLengthPadding := getPadding UL, dataLengthPadding := getPadding DL,
        compressedDataLengthPadding := getPadding CL,
        recordLengthPadding := getPadding L, dataLengthWords := getWords DL,
        compressedDataLengthWords := getWords CL, userHeaderLengthWords := getWords UL,
        recordLengthWords := getWords L, headerLengthWords := HL / 4,
        recordUserRegisterFirst := U1, recordUserRegisterSecond := U2,
        headerVersion := V, headerMagicWord := 0xc0da0100 } := rfl

theorem magic_read (ord ordRead : Bool) :
    getw ordRead (putw ord 3235512576) =
      if ordRead = ord then 3235512576 else 121536 := by
  rw [getw_putw]
  by_cases hoo : ordRead = ord
  · simp [hoo]
  · simp only [hoo, if_false]
    decide

/-- Core round-trip computation for the header codec when the buffer is read
in the byte order it was written in.  The result exposes the two read-back
asymmetries of the code (`recordLength` comes back as
`recordLengthWords * 4` and `compressedDataLength` comes back as the stored
word count; `headerLengthWords` stays at the fresh reader's 0). -/
theorem readHeader_writeHeader (ord : Bool) (h : RecordHeaderS)
    (hmagic : h.headerMagicWord = 3235512576)
    (b1 : h.recordLengthWords < 4294967296) (b2 : h.recordNumber < 4294967296)
    (b3 : h.headerLength < 4294967296) (b4 : h.entries < 4294967296)
    (b5 : h.indexLength < 4294967296) (b6 : h.userHeaderLength < 4294967296)
    (b7 : h.dataLength < 4294967296)
    (b8 : h.compressedDataLengthWords < 268435456)
    (b9 : h.compressionType < 16)
    (b10 : h.headerVersion < 256)
    (b11 : h.userHeaderLengthPadding < 4) (b12 : h.dataLengthPadding < 4)
    (b13 : h.compressedDataLengthPadding < 4)
    (b14 : h.recordUserRegisterFirst < 18446744073709551616)
    (b15 : h.recordUserRegisterSecond < 18446744073709551616) :
    readHeader (writeHeader h ord) ord =
      ({ recordLength := h.recordLengthWords * 4,
         recordNumber := h.recordNumber, entries := h.entries,
         headerLength := h.headerLength,
         userHeaderLength := h.userHeaderLength, indexLength := h.indexLength,
         dataLength := h.dataLength,
         compressedDataLength := h.compressedDataLengthWords,
         compressionType := h.compressionType,
         userHeaderLengthPadding := getPadding h.userHeaderLength,
         dataLengthPadding := getPadding h.dataLength,
         compressedDataLengthPadding := getPadding h.compressedDataLengthWords,
         recordLengthPadding := 0,
         dataLengthWords := getWords h.dataLength,
         compressedDataLengthWords := getWords h.compressedDataLengthWords,
         userHeaderLengthWords := getWords h.userHeaderLength,
         recordLengthWords := h.recordLengthWords, headerLengthWords := 0,
         recordUserRegisterFirst := h.recordUserRegisterFirst,
         recordUserRegisterSecond := h.recordUserRegisterSecond,
         headerVersion := h.headerVersion,
         headerMagicWord := 3235512576 }, ord) := by
  have hbit := getBitInfoWord_eq h b11 b12 b13
  have hbitlt : getBitInfoWord h < 4294967296 := by
    rw [hbit]
    have := Nat.mod_lt h.headerVersion (show 0 < 256 by norm_num)
    omega
  have hver : getBitInfoWord h &&& 255 = h.headerVersion := by
    have hm : getBitInfoWord h &&& 255 = getBitInfoWord h % 256 := by
      simpa using Nat.and_pow_two_sub_one_eq_mod (getBitInfoWord h) 8
    rw [hm, hbit]
    omega
  have hcw28 : h.compressedDataLengthWords &&& 0x0FFFFFFF = h.compressedDataLengthWords := by
    have hm : h.compressedDataLengthWords &&& 0x0FFFFFFF =
        h.compressedDataLengthWords % 268435456 := by
      simpa using Nat.and_pow_two_sub_one_eq_mod h.compressedDataLengthWords 28
    rw [hm, Nat.mod_eq_of_lt b8]
  have hct : h.compressionType &&& 0x0000000F = h.compressionType := by
    have hm : h.compressionType &&& 0x0000000F = h.compressionType % 16 := by
      simpa using Nat.and_pow_two_sub_one_eq_mod h.compressionType 4
    rw [hm, Nat.mod_eq_of_lt b9]
  have hcwval : (h.compressedDataLengthWords &&& 0x0FFFFFFF) |||
      ((h.compressionType &&& 0x0000000F) <<< 28) =
      268435456 * h.compressionType + h.compressedDataLengthWords := by
    rw [hcw28, hct, Nat.shiftLeft_eq, Nat.lor_comm, Nat.mul_comm]
    exact (Nat.mul_add_lt_is_or (by norm_num; omega) h.compressionType).symm
  have hcwlt : 268435456 * h.compressionType + h.compressedDataLengthWords < 4294967296 := by
    omega
  have hcshift : (268435456 * h.compressionType + h.compressedDataLengthWords) >>> 28 =
      h.compressionType := by
    rw [Nat.shiftRight_eq_div_pow]
    norm_num
    omega
  have hcland : (268435456 * h.compressionType + h.compressedDataLengthWords) &&& 0x0FFFFFFF =
      h.compressedDataLengthWords := by
    have hm := Nat.and_pow_two_sub_one_eq_mod
      (268435456 * h.compressionType + h.compressedDataLengthWords) 28
    norm_num at hm ⊢
    rw [hm]
    omega
  unfold readHeader readHeaderOn writeHeader
  rw [hmagic]
  simp only [List.getD_cons_zero, List.getD_cons_succ, magic_read, if_pos rfl]
  norm_num
  simp only [hcwval, getw_putw_same ord b1, getw_putw_same ord b2, getw_putw_same ord b3,
    getw_putw_same ord b4, getw_putw_same ord b5, getw_putw_same ord hbitlt,
    getw_putw_same ord b6, getw_putw_same ord b7, getw_putw_same ord hcwlt,
    getl_putl ord b14, getl_putl ord b15, hver, hcshift, hcland,
    RecordHeaderS.setIndexLength, RecordHeaderS.setUserHeaderLength,
    RecordHeaderS.setDataLength, RecordHeaderS.setCompressionType,
    RecordHeaderS.setCompressedDataLength, RecordHeaderS.init]
  simp

/-- Reading a header buffer with the opposite initial byte order: since the
byte-swapped magic word is 0x0001DAC0 but the code compares against the
constant 0x0010DAC0, the flip branch does not fire; the reader keeps its
(wrong) byte order and every 32-bit field comes back byte-reversed. -/
theorem readHeader_writeHeader_opposite (ord : Bool) (h : RecordHeaderS)
    (hmagic : h.headerMagicWord = 3235512576)
    (b2 : h.recordNumber < 4294967296)
    (b3 : h.headerLength < 4294967296) (b4 : h.entries < 4294967296)
    (b5 : h.indexLength < 4294967296) (b6 : h.userHeaderLength < 4294967296)
    (b7 : h.dataLength < 4294967296) :
    (readHeader (writeHeader h ord) (!ord)).2 = !ord ∧
    (readHeader (writeHeader h ord) (!ord)).1.headerMagicWord = 121536 ∧
    (readHeader (writeHeader h ord) (!ord)).1.recordNumber = bswap32 h.recordNumber ∧
    (readHeader (writeHeader h ord) (!ord)).1.headerLength = bswap32 h.headerLength ∧
    (readHeader (writeHeader h ord) (!ord)).1.entries = bswap32 h.entries ∧
    (readHeader (writeHeader h ord) (!ord)).1.indexLength = bswap32 h.indexLength ∧
    (readHeader (writeHeader h ord) (!ord)).1.userHeaderLength = bswap32 h.userHeaderLength ∧
    (readHeader (writeHeader h ord) (!ord)).1.dataLength = bswap32 h.dataLength := by
  have hnoteq : (!ord) ≠ ord := by cases ord <;> simp
  have hread : ∀ v : Nat, v < 4294967296 → getw (!ord) (putw ord v) = bswap32 v := by
    intro v hv
    rw [getw_putw, if_neg hnoteq, Nat.mod_eq_of_lt hv]
  unfold readHeader readHeaderOn writeHeader
  rw [hmagic]
  simp only [List.getD_cons_zero, List.getD_cons_succ, magic_read, if_neg hnoteq]
  norm_num
  simp only [hread _ b2, hread _ b3, hread _ b4, hread _ b5, hread _ b6, hread _ b7,
    RecordHeaderS.setIndexLength, RecordHeaderS.setUserHeaderLength,
    RecordHeaderS.setDataLength, RecordHeaderS.setCompressionType,
    RecordHeaderS.setCompressedDataLength, RecordHeaderS.init]
  norm_num

/-! ## Claim theorems -/

/-- C1: word 7 equal to 0xC0DA0100 keeps the buffer order, and word 7 equal
to the constant 0x0010DAC0 flips it; but contrary to the claim, `readHeader`
never fails: on a buffer whose word 7 is 0x12345678 (neither constant) and
whose version byte is 4 (< 6), it returns normally, keeps the buffer order,
and populates every field.  Moreover a header genuinely written in the
opposite byte order makes word 7 read as 0x0001DAC0 — the true byte swap of
the magic word, which differs from the constant 0x0010DAC0 that the claim
calls the byte-swapped form — so it too falls into the silent bad-magic
path: no flip, no failure. -/
theorem c1_readHeader_never_fails :
    (readHeader (writeHeader RecordHeaderS.init true) true).2 = true ∧
    (readHeader flipMagicBuf true).2 = false ∧
    (readHeader badMagicBuf true).2 = true ∧
    (readHeader badMagicBuf true).1.headerMagicWord = 0x12345678 ∧
    (readHeader badMagicBuf true).1.headerVersion = 4 ∧
    (readHeader badMagicBuf true).1.recordNumber = 23 ∧
    (readHeader badMagicBuf true).1.recordLength = 8 ∧
    bswap32 0xc0da0100 = 0x0001dac0 ∧
    (readHeader swappedMagicBuf true).2 = true ∧
    (readHeader swappedMagicBuf true).1.headerMagicWord = 0x0001dac0 := by
  decide

/-- C2 (counterexample): for the very header built by `RecordHeader.main`,
parse-of-serialize does not recover `compressedDataLength` (861 bytes come
back as 216, the stored word count); and reading the bytes with the
opposite initial byte order neither toggles the order nor recovers the
field values (the record number comes back byte-reversed). -/
theorem c2_roundtrip_counterexample :
    (readHeader (writeHeader mainHeader true) true).1.compressedDataLength ≠
      mainHeader.compressedDataLength ∧
    (readHeader (writeHeader mainHeader true) false).2 ≠ true ∧
    (readHeader (writeHeader mainHeader true) false).1.recordNumber ≠
      mainHeader.recordNumber := by
  decide

/-- C2 (amended): for a header built from primary values by the setter
chain, parsing the serialized 14 words in the same byte order recovers
every claimed field except: `compressedDataLength` comes back as its word
count (`writeHeader` stores `compressedDataLengthWords`, `readHeader` reads
it as a byte count), `recordLength` requires a multiple of 4 (word 0 stores
the word count), and `headerLengthWords` is left at the fresh reader's 0.
Reading in the opposite byte order does not toggle the reader's order (the
flip constant 0x0010DAC0 differs from the true byte swap 0x0001DAC0) and
field values come back byte-reversed. -/
theorem c2_header_roundtrip (ord : Bool) (L R HL E IL V UL DL CL CT U1 U2 : Nat)
    (hL4 : L % 4 = 0) (hL : L < 4294967296) (hR : R < 4294967296)
    (hHL : HL < 4294967296) (hE : E < 4294967296) (hIL : IL < 4294967296)
    (hV : V < 256) (hUL : UL < 4294967296) (hDL : DL < 4294967296)
    (hCLw : getWords CL < 268435456) (hCT : CT < 16)
    (hU1 : U1 < 18446744073709551616) (hU2 : U2 < 18446744073709551616) :
    readHeader (writeHeader (mkHeader L R HL E IL V UL DL CL CT U1 U2) ord) ord =
      ({ recordLength := L, recordNumber := R, entries := E, headerLength := HL,
         userHeaderLength := UL, indexLength := IL, dataLength := DL,
         compressedDataLength := getWords CL, compressionType := CT,
         userHeaderLengthPadding := getPadding UL, dataLengthPadding := getPadding DL,
         compressedDataLengthPadding := getPadding (getWords CL),
         recordLengthPadding := 0, dataLengthWords := getWords DL,
         compressedDataLengthWords := getWords (getWords CL),
         userHeaderLengthWords := getWords UL, recordLengthWords := L / 4,
         headerLengthWords := 0, recordUserRegisterFirst := U1,
         recordUserRegisterSecond := U2, headerVersion := V,
         headerMagicWord := 3235512576 }, ord) ∧
    (readHeader (writeHeader (mkHeader L R HL E IL V UL DL CL CT U1 U2) ord) (!ord)).2 =
      !ord ∧
    (readHeader (writeHeader (mkHeader L R HL E IL V UL DL CL CT U1 U2) ord)
      (!ord)).1.recordNumber = bswap32 R := by
  have hfields := mkHeader_eq L R HL E IL V UL DL CL CT U1 U2
  have hW4 : getWords L = L / 4 := by
    rw [getWords_eq]
    omega
  have hLL : L / 4 * 4 = L := by omega
  have bW : getWords L < 4294967296 := by
    rw [getWords_eq]
    omega
  rw [hfields]
  refine ⟨?_, ?_, ?_⟩
  · rw [readHeader_writeHeader ord _ rfl bW hR hHL hE hIL hUL hDL hCLw hCT hV
      (getPadding_lt UL) (getPadding_lt DL) (getPadding_lt CL) hU1 hU2]
    dsimp only
    rw [hW4, hLL]
  · exact (readHeader_writeHeader_opposite ord _ rfl hR hHL hE hIL hUL hDL).1
  · exact (readHeader_writeHeader_opposite ord _ rfl hR hHL hE hIL hUL hDL).2.2.1

/-- C2 (witness): the amended round trip at a concrete header. -/
theorem c2_header_roundtrip_witness :
    ((8 : Nat) % 4 = 0 ∧ (6 : Nat) < 256 ∧ getWords 861 < 268435456 ∧ (1 : Nat) < 16) ∧
    (readHeader (writeHeader (mkHeader 8 7 14 3 20 6 5 44 861 1 123 456) true) true =
      ({ recordLength := 8, recordNumber := 7, entries := 3, headerLength := 14,
         userHeaderLength := 5, indexLength := 20, dataLength := 44,
         compressedDataLength := getWords 861, compressionType := 1,
         userHeaderLengthPadding := getPadding 5, dataLengthPadding := getPadding 44,
         compressedDataLengthPadding := getPadding (getWords 861),
         recordLengthPadding := 0, dataLengthWords := getWords 44,
         compressedDataLengthWords := getWords (getWords 861),
         userHeaderLengthWords := getWords 5, recordLengthWords := 8 / 4,
         headerLengthWords := 0, recordUserRegisterFirst := 123,
         recordUserRegisterSecond := 456, headerVersion := 6,
         headerMagicWord := 3235512576 }, true) ∧
     (readHeader (writeHeader (mkHeader 8 7 14 3 20 6 5 44 861 1 123 456) true)
       (!true)).2 = !true ∧
     (readHeader (writeHeader (mkHeader 8 7 14 3 20 6 5 44 861 1 123 456) true)
       (!true)).1.recordNumber = bswap32 7) :=
  ⟨by decide,
   c2_header_roundtrip true 8 7 14 3 20 6 5 44 861 1 123 456 (by decide) (by decide)
     (by decide) (by decide) (by decide) (by decide) (by decide) (by decide) (by decide)
     (by decide) (by decide) (by decide) (by decide)⟩

/-- C3: the header codec computes padding as `(-n) & 3`, i.e. `(4 - n % 4) % 4`
(0, 3, 2, 1 for `n % 4` = 0, 1, 2, 3), and the derived length in words as
`n / 4` rounded up; the four length setters recompute their derived
words-and-padding fields from the new value; and the bit-info word packs the
version in its low 8 bits with the three padding counts at bits 20-21,
22-23 and 24-25. -/
theorem c3_padding_words_bitinfo (n : Nat) (h : RecordHeaderS)
    (ha : h.userHeaderLengthPadding < 4) (hb : h.dataLengthPadding < 4)
    (hc : h.compressedDataLengthPadding < 4) (hv : h.headerVersion < 256) :
    (getPadding n = (4 - n % 4) % 4 ∧
     (n % 4 = 0 → getPadding n = 0) ∧ (n % 4 = 1 → getPadding n = 3) ∧
     (n % 4 = 2 → getPadding n = 2) ∧ (n % 4 = 3 → getPadding n = 1)) ∧
    getWords n = (n + 3) / 4 ∧
    ((h.setUserHeaderLength n).userHeaderLength = n ∧
     (h.setUserHeaderLength n).userHeaderLengthWords = getWords n ∧
     (h.setUserHeaderLength n).userHeaderLengthPadding = getPadding n) ∧
    ((h.setDataLength n).dataLength = n ∧
     (h.setDataLength n).dataLengthWords = getWords n ∧
     (h.setDataLength n).dataLengthPadding = getPadding n) ∧
    ((h.setCompressedDataLength n).compressedDataLength = n ∧
     (h.setCompressedDataLength n).compressedDataLengthWords = getWords n ∧
     (h.setCompressedDataLength n).compressedDataLengthPadding = getPadding n) ∧
    ((h.setLength n).recordLength = n ∧
     (h.setLength n).recordLengthWords = getWords n ∧
     (h.setLength n).recordLengthPadding = getPadding n) ∧
    (getBitInfoWord h &&& 255 = h.headerVersion ∧
     (getBitInfoWord h >>> 20) &&& 3 = h.userHeaderLengthPadding ∧
     (getBitInfoWord h >>> 22) &&& 3 = h.dataLengthPadding ∧
     (getBitInfoWord h >>> 24) &&& 3 = h.compressedDataLengthPadding) := by
  have hbit := getBitInfoWord_eq h ha hb hc
  have hmod : ∀ m : Nat, m &&& 3 = m % 4 := fun m => by
    simpa using Nat.and_pow_two_sub_one_eq_mod m 2
  have h255 : getBitInfoWord h &&& 255 = getBitInfoWord h % 256 := by
    simpa using Nat.and_pow_two_sub_one_eq_mod (getBitInfoWord h) 8
  refine ⟨⟨getPadding_eq n, ?_, ?_, ?_, ?_⟩, getWords_eq n, ⟨rfl, rfl, rfl⟩,
    ⟨rfl, rfl, rfl⟩, ⟨rfl, rfl, rfl⟩, ⟨rfl, rfl, rfl⟩, ?_, ?_, ?_, ?_⟩
  · intro hn
    rw [getPadding_eq, hn]
  · intro hn
    rw [getPadding_eq, hn]
  · intro hn
    rw [getPadding_eq, hn]
  · intro hn
    rw [getPadding_eq, hn]
  · rw [h255, hbit]
    omega
  · rw [hmod, Nat.shiftRight_eq_div_pow, hbit]
    norm_num
    omega
  · rw [hmod, Nat.shiftRight_eq_div_pow, hbit]
    norm_num
    omega
  · rw [hmod, Nat.shiftRight_eq_div_pow, hbit]
    norm_num
    omega

/-- C3 (witness): the padding, words, setter and bit-info properties at
`n = 5` on the header built by `RecordHeader.main`. -/
theorem c3_padding_words_bitinfo_witness :
    (mainHeader.userHeaderLengthPadding < 4 ∧ mainHeader.dataLengthPadding < 4 ∧
     mainHeader.compressedDataLengthPadding < 4 ∧ mainHeader.headerVersion < 256) ∧
    (getPadding 5 = (4 - 5 % 4) % 4 ∧
     (5 % 4 = 0 → getPadding 5 = 0) ∧ (5 % 4 = 1 → getPadding 5 = 3) ∧
     (5 % 4 = 2 → getPadding 5 = 2) ∧ (5 % 4 = 3 → getPadding 5 = 1)) ∧
    getWords 5 = (5 + 3) / 4 ∧
    ((mainHeader.setUserHeaderLength 5).userHeaderLength = 5 ∧
     (mainHeader.setUserHeaderLength 5).userHeaderLengthWords = getWords 5 ∧
     (mainHeader.setUserHeaderLength 5).userHeaderLengthPadding = getPadding 5) ∧
    ((mainHeader.setDataLength 5).dataLength = 5 ∧
     (mainHeader.setDataLength 5).dataLengthWords = getWords 5 ∧
     (mainHeader.setDataLength 5).dataLengthPadding = getPadding 5) ∧
    ((mainHeader.setCompressedDataLength 5).compressedDataLength = 5 ∧
     (mainHeader.setCompressedDataLength 5).compressedDataLengthWords = getWords 5 ∧
     (mainHeader.setCompressedDataLength 5).compressedDataLengthPadding = getPadding 5) ∧
    ((mainHeader.setLength 5).recordLength = 5 ∧
     (mainHeader.setLength 5).recordLengthWords = getWords 5 ∧
     (mainHeader.setLength 5).recordLengthPadding = getPadding 5) ∧
    (getBitInfoWord mainHeader &&& 255 = mainHeader.headerVersion ∧
     (getBitInfoWord mainHeader >>> 20) &&& 3 = mainHeader.userHeaderLengthPadding ∧
     (getBitInfoWord mainHeader >>> 22) &&& 3 = mainHeader.dataLengthPadding ∧
     (getBitInfoWord mainHeader >>> 24) &&& 3 = mainHeader.compressedDataLengthPadding) :=
  ⟨by decide,
   c3_padding_words_bitinfo 5 mainHeader (by decide) (by decide) (by decide) (by decide)⟩

theorem getl_flip (ord : Bool) {a b : Nat} (ha : a < 4294967296) (hb : b < 4294967296) :
    getl (!ord) (bswap32 b) (bswap32 a) = getl ord a b := by
  cases ord <;>
    simp [getl, bswap32_bswap32 ha, bswap32_bswap32 hb] <;>
    omega

/-- C4: header words 10-13 hold the two 64-bit user registers as single
64-bit quantities in the buffer's byte order — writing a header and reading
it back recovers the register values exactly in either buffer byte order —
and `evioSwapRecordHeaderV6` byte-swaps every 32-bit word and additionally
exchanges words 10/11 and words 12/13, so that reading each register from
the swapped header under the flipped byte order yields the original 64-bit
value: each register is swapped as one 64-bit unit. -/
theorem c4_user_registers_64bit (ord : Bool) (h : RecordHeaderS) (mem : List Nat)
    (hmagic : h.headerMagicWord = 3235512576)
    (b1 : h.recordLengthWords < 4294967296) (b2 : h.recordNumber < 4294967296)
    (b3 : h.headerLength < 4294967296) (b4 : h.entries < 4294967296)
    (b5 : h.indexLength < 4294967296) (b6 : h.userHeaderLength < 4294967296)
    (b7 : h.dataLength < 4294967296)
    (b8 : h.compressedDataLengthWords < 268435456)
    (b9 : h.compressionType < 16) (b10 : h.headerVersion < 256)
    (b11 : h.userHeaderLengthPadding < 4) (b12 : h.dataLengthPadding < 4)
    (b13 : h.compressedDataLengthPadding < 4)
    (b14 : h.recordUserRegisterFirst < 18446744073709551616)
    (b15 : h.recordUserRegisterSecond < 18446744073709551616)
    (hlen : mem.length = 14) (hw : ∀ w ∈ mem, w < 4294967296) :
    ((readHeader (writeHeader h ord) ord).1.recordUserRegisterFirst =
       h.recordUserRegisterFirst ∧
     (readHeader (writeHeader h ord) ord).1.recordUserRegisterSecond =
       h.recordUserRegisterSecond) ∧
    ((evioSwapRecordHeaderV6 mem).getD 10 0 = bswap32 (mem.getD 11 0) ∧
     (evioSwapRecordHeaderV6 mem).getD 11 0 = bswap32 (mem.getD 10 0) ∧
     (evioSwapRecordHeaderV6 mem).getD 12 0 = bswap32 (mem.getD 13 0) ∧
     (evioSwapRecordHeaderV6 mem).getD 13 0 = bswap32 (mem.getD 12 0) ∧
     (∀ i, i < 10 → (evioSwapRecordHeaderV6 mem).getD i 0 = bswap32 (mem.getD i 0))) ∧
    (getl (!ord) ((evioSwapRecordHeaderV6 mem).getD 10 0)
        ((evioSwapRecordHeaderV6 mem).getD 11 0) =
       getl ord (mem.getD 10 0) (mem.getD 11 0) ∧
     getl (!ord) ((evioSwapRecordHeaderV6 mem).getD 12 0)
        ((evioSwapRecordHeaderV6 mem).getD 13 0) =
       getl ord (mem.getD 12 0) (mem.getD 13 0)) := by
  obtain ⟨a0, a1, a2, a3, a4, a5, a6, a7, a8, a9, a10, a11, a12, a13, mem, hnil⟩ :
      ∃ x0 x1 x2 x3 x4 x5 x6 x7 x8 x9 x10 x11 x12 x13 rest,
        mem = x0 :: x1 :: x2 :: x3 :: x4 :: x5 :: x6 :: x7 :: x8 :: x9 :: x10 :: x11 ::
          x12 :: x13 :: rest := by
    match mem, hlen with
    | x0 :: x1 :: x2 :: x3 :: x4 :: x5 :: x6 :: x7 :: x8 :: x9 :: x10 :: x11 ::
        x12 :: x13 :: [], _ =>
      exact ⟨x0, x1, x2, x3, x4, x5, x6, x7, x8, x9, x10, x11, x12, x13, [], rfl⟩
  subst hnil
  simp only [List.length_cons] at hlen
  have hrest : mem = [] := by
    have := List.length_eq_zero.mp (by omega : mem.length = 0)
    exact this
  subst hrest
  have hv10 : a10 < 4294967296 := hw a10 (by simp)
  have hv11 : a11 < 4294967296 := hw a11 (by simp)
  have hv12 : a12 < 4294967296 := hw a12 (by simp)
  have hv13 : a13 < 4294967296 := hw a13 (by simp)
  refine ⟨?_, ⟨?_, ?_, ?_, ?_, ?_⟩, ?_, ?_⟩
  · have hcore := readHeader_writeHeader ord h hmagic b1 b2 b3 b4 b5 b6 b7 b8 b9 b10
      b11 b12 b13 b14 b15
    rw [hcore]
    exact ⟨rfl, rfl⟩
  · simp [evioSwapRecordHeaderV6, exchangeWords, swap_int32_t, List.set, List.getD]
  · simp [evioSwapRecordHeaderV6, exchangeWords, swap_int32_t, List.set, List.getD]
  · simp [evioSwapRecordHeaderV6, exchangeWords, swap_int32_t, List.set, List.getD]
  · simp [evioSwapRecordHeaderV6, exchangeWords, swap_int32_t, List.set, List.getD]
  · intro i hi
    interval_cases i <;>
      simp [evioSwapRecordHeaderV6, exchangeWords, swap_int32_t, List.set, List.getD]
  · have he : (evioSwapRecordHeaderV6
        [a0, a1, a2, a3, a4, a5, a6, a7, a8, a9, a10, a11, a12, a13]).getD 10 0 =
        bswap32 a11 := by
      simp [evioSwapRecordHeaderV6, exchangeWords, swap_int32_t, List.set, List.getD]
    have hf : (evioSwapRecordHeaderV6
        [a0, a1, a2, a3, a4, a5, a6, a7, a8, a9, a10, a11, a12, a13]).getD 11 0 =
        bswap32 a10 := by
      simp [evioSwapRecordHeaderV6, exchangeWords, swap_int32_t, List.set, List.getD]
    rw [he, hf]
    simpa using getl_flip ord hv10 hv11
  · have he : (evioSwapRecordHeaderV6
        [a0, a1, a2, a3, a4, a5, a6, a7, a8, a9, a10, a11, a12, a13]).getD 12 0 =
        bswap32 a13 := by
      simp [evioSwapRecordHeaderV6, exchangeWords, swap_int32_t, List.set, List.getD]
    have hf : (evioSwapRecordHeaderV6
        [a0, a1, a2, a3, a4, a5, a6, a7, a8, a9, a10, a11, a12, a13]).getD 13 0 =
        bswap32 a12 := by
      simp [evioSwapRecordHeaderV6, exchangeWords, swap_int32_t, List.set, List.getD]
    rw [he, hf]
    simpa using getl_flip ord hv12 hv13

/-- C4 (witness): the register properties at the `RecordHeader.main` header
and the buffer it serializes to. -/
theorem c4_user_registers_64bit_witness :
    (mainHeader.headerMagicWord = 3235512576 ∧
     (writeHeader mainHeader true).length = 14) ∧
    (((readHeader (writeHeader mainHeader true) true).1.recordUserRegisterFirst =
        mainHeader.recordUserRegisterFirst ∧
      (readHeader (writeHeader mainHeader true) true).1.recordUserRegisterSecond =
        mainHeader.recordUserRegisterSecond) ∧
     (((evioSwapRecordHeaderV6 (writeHeader mainHeader true)).getD 10 0 =
         bswap32 ((writeHeader mainHeader true).getD 11 0) ∧
       (evioSwapRecordHeaderV6 (writeHeader mainHeader true)).getD 11 0 =
         bswap32 ((writeHeader mainHeader true).getD 10 0) ∧
       (evioSwapRecordHeaderV6 (writeHeader mainHeader true)).getD 12 0 =
         bswap32 ((writeHeader mainHeader true).getD 13 0) ∧
       (evioSwapRecordHeaderV6 (writeHeader mainHeader true)).getD 13 0 =
         bswap32 ((writeHeader mainHeader true).getD 12 0) ∧
       (∀ i, i < 10 → (evioSwapRecordHeaderV6 (writeHeader mainHeader true)).getD i 0 =
         bswap32 ((writeHeader mainHeader true).getD i 0)))) ∧
     (getl (!true) ((evioSwapRecordHeaderV6 (writeHeader mainHeader true)).getD 10 0)
         ((evioSwapRecordHeaderV6 (writeHeader mainHeader true)).getD 11 0) =
        getl true ((writeHeader mainHeader true).getD 10 0)
          ((writeHeader mainHeader true).getD 11 0) ∧
      getl (!true) ((evioSwapRecordHeaderV6 (writeHeader mainHeader true)).getD 12 0)
         ((evioSwapRecordHeaderV6 (writeHeader mainHeader true)).getD 13 0) =
        getl true ((writeHeader mainHeader true).getD 12 0)
          ((writeHeader mainHeader true).getD 13 0))) :=
  ⟨by decide,
   c4_user_registers_64bit true mainHeader (writeHeader mainHeader true) (by decide)
     (by decide) (by decide) (by decide) (by decide) (by decide) (by decide) (by decide)
     (by decide) (by decide) (by decide) (by decide) (by decide) (by decide) (by decide)
     (by decide) (by decide) (by decide)⟩

/-- C5: for every well-formed evio event (bank) tree, the swapper maps the
opposite-endian encoding with `tolocal` set to the native encoding and the
native encoding with `tolocal` clear to the opposite-endian encoding, on
either host byte order `hle`; hence swapping twice —
`swap(swap(x, tolocal=1), tolocal=0)` on a foreign buffer `x`, and the
mirror-image composition on a native buffer — reproduces the original bytes
exactly.  `evioswap` models both the in-place (`dest == NULL`) and the
copying call, which compute the same output bytes; composite payloads
(type 0xf) are excluded by well-formedness because their swap is delegated
to the external `eviofmt`/`eviofmtswap` library, declared but not defined
in this repository. -/
theorem c5_swap_double_identity (hle : Bool) (s : EvStruct) (fuel : Nat)
    (hbank : kindOf s = SKind.bank) (hwf : wfS s = true) (hfuel : fuelS s ≤ fuel) :
    (evioswap hle fuel (serSx hle s) true = some (serS hle s) ∧
     evioswap hle fuel (serS hle s) false = some (serSx hle s)) ∧
    (evioswap hle fuel (serSx hle s) true).bind
        (fun y => evioswap hle fuel y false) = some (serSx hle s) ∧
    (evioswap hle fuel (serS hle s) false).bind
        (fun y => evioswap hle fuel y true) = some (serS hle s) := by
  have h := swapS_ser hle s fuel hwf hfuel
  rw [hbank] at h
  simp only [swapStruct] at h
  refine ⟨⟨h.1, h.2⟩, ?_, ?_⟩
  · unfold evioswap
    rw [h.1]
    simpa using h.2
  · unfold evioswap
    rw [h.2]
    simpa using h.1

theorem getD_append_left {l1 l2 : List Nat} {i : Nat} (h : i < l1.length) :
    (l1 ++ l2).getD i 0 = l1.getD i 0 := by
  simp [List.getD_eq_getElem?_getD, List.getElem?_append, h]

theorem getD_append_right {l1 l2 : List Nat} {i : Nat} (h : l1.length ≤ i) :
    (l1 ++ l2).getD i 0 = l2.getD (i - l1.length) 0 := by
  simp [List.getD_eq_getElem?_getD, List.getElem?_append, Nat.not_lt.mpr h]

theorem getD_drop (l : List Nat) (n i : Nat) : (l.drop n).getD i 0 = l.getD (n + i) 0 := by
  simp [List.getD_eq_getElem?_getD, List.getElem?_drop]

theorem getD_take {l : List Nat} {n i : Nat} (h : i < n) :
    (l.take n).getD i 0 = l.getD i 0 := by
  simp [List.getD_eq_getElem?_getD, List.getElem?_take, h]

theorem getD_set_self {l : List Nat} {i : Nat} (v : Nat) (h : i < l.length) :
    (l.set i v).getD i 0 = v := by
  simp [List.getD_eq_getElem?_getD, List.getElem?_set_self, h]

theorem getD_set_ne {l : List Nat} {i j : Nat} (v : Nat) (h : i ≠ j) :
    (l.set i v).getD j 0 = l.getD j 0 := by
  simp [List.getD_eq_getElem?_getD, List.getElem?_set_ne h]

theorem serKids_append (a b : List (Nat × List Nat)) :
    serKids (a ++ b) = serKids a ++ serKids b := by
  induction a with
  | nil => rfl
  | cons k ks ih => simp [serKids, ih]

theorem serKids_length (ks : List (Nat × List Nat)) :
    (serKids ks).length = sumKidWords ks := by
  induction ks with
  | nil => rfl
  | cons k ks ih => simp [serKids, sumKidWords, mkBank, kidWords, ih] at *; omega

theorem scanBanks_serKids :
    ∀ (ks : List (Nat × List Nat)) (base fuel : Nat), ks.length ≤ fuel →
      scanBanks fuel base (serKids ks) = some (expectedScan base ks)
  | [], base, fuel, _ => by
      cases fuel <;> simp [serKids, scanBanks, expectedScan]
  | k :: ks, base, fuel, hf => by
      cases fuel with
      | zero => simp at hf
      | succ fuel =>
          have ih := scanBanks_serKids ks (base + (k.2.length + 1 + 1)) fuel
            (by simp at hf; omega)
          simp only [serKids, mkBank, List.append_eq, List.cons_append, scanBanks]
          rw [if_pos ⟨by omega, by simp⟩]
          have hdd : ((k.2.length + 1) :: k.1 :: (k.2 ++ serKids ks)).drop
              (k.2.length + 1 + 1) = serKids ks := by
            simp only [List.drop_succ_cons]
            exact List.drop_left _ _
          rw [hdd, ih]
          have harith : kidWords k = k.2.length + 1 + 1 := by
            simp [kidWords]
            omega
          simp [expectedScan, harith]

/-- C6: after `removeStructure` on a child bank of a single-event
uncompressed buffer, the readable span shrinks by exactly the node's word
count (that is, by its byte count), every word from the node position on is
the old word shifted down by that count, the ancestor (event) length word
and the record header's record-length word (in words) and
uncompressed-data-length word (in bytes) are decremented by the removed
amount, every other word before the node is unchanged, a rescan of the
event body yields exactly the remaining children, and every previously
issued node is marked obsolete. -/
theorem c6_removeStructure (pre : List Nat) (evW1 : Nat)
    (kids : List (Nat × List Nat)) (j : Nat) (nodes : List RNode)
    (hj : j < kids.length) (hpre : 9 ≤ pre.length)
    (hrl : kidWords (kids.getD j (0, [])) ≤ pre.getD 0 0)
    (hudl : 4 * kidWords (kids.getD j (0, [])) ≤ pre.getD 8 0) :
    (removeStructure (eventBuf pre evW1 kids) (childNode pre kids j)).length =
      (eventBuf pre evW1 kids).length - (childNode pre kids j).totalW ∧
    (∀ i, (childNode pre kids j).posW ≤ i →
      (removeStructure (eventBuf pre evW1 kids) (childNode pre kids j)).getD i 0 =
        (eventBuf pre evW1 kids).getD (i + (childNode pre kids j).totalW) 0) ∧
    (removeStructure (eventBuf pre evW1 kids) (childNode pre kids j)).getD
        pre.length 0 =
      (eventBuf pre evW1 kids).getD pre.length 0 - (childNode pre kids j).totalW ∧
    (removeStructure (eventBuf pre evW1 kids) (childNode pre kids j)).getD 0 0 =
      (eventBuf pre evW1 kids).getD 0 0 - (childNode pre kids j).totalW ∧
    (removeStructure (eventBuf pre evW1 kids) (childNode pre kids j)).getD 8 0 =
      (eventBuf pre evW1 kids).getD 8 0 - 4 * (childNode pre kids j).totalW ∧
    (∀ i, i < (childNode pre kids j).posW → i ≠ 0 → i ≠ 8 → i ≠ pre.length →
      (removeStructure (eventBuf pre evW1 kids) (childNode pre kids j)).getD i 0 =
        (eventBuf pre evW1 kids).getD i 0) ∧
    scanBanks (kids.eraseIdx j).length (pre.length + 2)
      ((removeStructure (eventBuf pre evW1 kids) (childNode pre kids j)).drop
        (pre.length + 2)) =
      some (expectedScan (pre.length + 2) (kids.eraseIdx j)) ∧
    (∀ n ∈ markObsolete nodes, n.obsolete = true) := by
  have hsplitK : kids = kids.take j ++ kids.getD j (0, []) :: kids.drop (j + 1) := by
    conv_lhs => rw [← List.take_append_drop j kids]
    rw [List.drop_eq_getElem_cons hj]
    simp [List.getD_eq_getElem?_getD, List.getElem?_eq_getElem hj]
  set K := kids.getD j (0, []) with hK
  set A := serKids (kids.take j) with hA
  set B := mkBank K.1 K.2 with hB
  set C := serKids (kids.drop (j + 1)) with hC
  have hserk : serKids kids = A ++ (B ++ C) := by
    conv_lhs => rw [hsplitK]
    rw [serKids_append]
    simp [serKids]
  have hAlen : A.length = sumKidWords (kids.take j) := serKids_length _
  have hBlen : B.length = kidWords K := by
    rw [hB]
    simp [mkBank, kidWords]
    omega
  set tW := kidWords K with htW
  set pW := pre.length + 2 + sumKidWords (kids.take j) with hpW
  have hnode : childNode pre kids j = RNode.mk pW tW 0 [pre.length] false := rfl
  have hpos : (childNode pre kids j).posW = pW := rfl
  have htot : (childNode pre kids j).totalW = tW := rfl
  set len0 := (serKids kids).length + 1 with hlen0
  set buf := eventBuf pre evW1 kids with hbufdef
  have hbuf : buf = pre ++ (len0 :: evW1 :: (A ++ (B ++ C))) := by
    rw [hbufdef, eventBuf, mkBank, ← hlen0, hserk]
  have hbuflen : buf.length = pre.length + 2 + A.length + B.length + C.length := by
    rw [hbuf]
    simp
    omega
  have htake : buf.take pW = pre ++ (len0 :: evW1 :: A) := by
    rw [hbuf, hpW]
    have h1 : pre.length + 2 + sumKidWords (kids.take j) =
        pre.length + (sumKidWords (kids.take j) + 2) := by omega
    rw [h1, List.take_append]
    congr 1
    rw [← hAlen]
    have h2 : A.length + 2 = (A.length + 1) + 1 := by omega
    rw [h2, List.take_succ_cons, List.take_succ_cons, List.take_left]
  have hdropB : buf.drop (pW + tW) = C := by
    rw [hbuf, hpW, htW]
    have h1 : pre.length + 2 + sumKidWords (kids.take j) + kidWords K =
        pre.length + (sumKidWords (kids.take j) + kidWords K + 2) := by omega
    rw [h1, List.drop_append]
    have h2 : sumKidWords (kids.take j) + kidWords K + 2 =
        (sumKidWords (kids.take j) + kidWords K + 1) + 1 := by omega
    rw [h2, List.drop_succ_cons, List.drop_succ_cons]
    have h3 : sumKidWords (kids.take j) + kidWords K = (A ++ B).length := by
      simp [hAlen, hBlen]
    rw [h3, ← List.append_assoc, List.drop_left]
  set D := pre ++ (len0 :: evW1 :: (A ++ C)) with hD
  have hDlen : D.length = pre.length + 2 + A.length + C.length := by
    rw [hD]
    simp
    omega
  have hshift : buf.take pW ++ buf.drop (pW + tW) = D := by
    rw [htake, hdropB, hD]
    simp
  set M1 := D.set pre.length (D.getD pre.length 0 - tW) with hM1
  set M2 := M1.set 0 (M1.getD 0 0 - tW) with hM2
  set FB := M2.set 8 (M2.getD 8 0 - 4 * tW) with hFB
  have hform : removeStructure buf (childNode pre kids j) = FB := by
    rw [removeStructure]
    simp only [hnode, List.foldl_cons, List.foldl_nil, Nat.zero_add]
    rw [hshift, hFB, hM2, hM1]
  have hM1len : M1.length = D.length := by
    rw [hM1]
    simp
  have hM2len : M2.length = D.length := by
    rw [hM2]
    simp
    omega
  have hFBlen : FB.length = D.length := by
    rw [hFB]
    simp
    omega
  have hbufPL : buf.getD pre.length 0 = len0 := by
    rw [hbuf, getD_append_right (le_refl pre.length)]
    simp
  have hDPL : D.getD pre.length 0 = len0 := by
    rw [hD, getD_append_right (le_refl pre.length)]
    simp
  have hbufsmall : ∀ i, i < pre.length → buf.getD i 0 = pre.getD i 0 := by
    intro i hi
    rw [hbuf, getD_append_left hi]
  have hDsmall : ∀ i, i < pre.length → D.getD i 0 = pre.getD i 0 := by
    intro i hi
    rw [hD, getD_append_left hi]
  refine ⟨?_, ?_, ?_, ?_, ?_, ?_, ?_, ?_⟩
  · rw [hform, htot]
    omega
  · intro i hi
    rw [hpos] at hi
    rw [hform, htot, hFB, getD_set_ne _ (by omega : (8 : Nat) ≠ i), hM2,
      getD_set_ne _ (by omega : (0 : Nat) ≠ i), hM1,
      getD_set_ne _ (by omega : pre.length ≠ i), ← hshift]
    have hlt : (buf.take pW).length = pW := by
      rw [List.length_take]
      omega
    rw [getD_append_right (by rw [hlt]; omega : (buf.take pW).length ≤ i)]
    rw [hlt, getD_drop]
    have harith : pW + tW + (i - pW) = i + tW := by omega
    rw [harith]
  · rw [hform, htot, hFB, getD_set_ne _ (by omega : (8 : Nat) ≠ pre.length), hM2,
      getD_set_ne _ (by omega : (0 : Nat) ≠ pre.length), hM1,
      getD_set_self _ (by omega : pre.length < D.length), hDPL, hbufPL]
  · rw [hform, htot, hFB, getD_set_ne _ (by omega : (8 : Nat) ≠ 0), hM2,
      getD_set_self _ (by omega : (0 : Nat) < M1.length), hM1,
      getD_set_ne _ (by omega : pre.length ≠ 0), hDsmall 0 (by omega),
      hbufsmall 0 (by omega)]
  · rw [hform, htot, hFB, getD_set_self _ (by omega : (8 : Nat) < M2.length), hM2,
      getD_set_ne _ (by omega : (0 : Nat) ≠ 8), hM1,
      getD_set_ne _ (by omega : pre.length ≠ 8), hDsmall 8 (by omega),
      hbufsmall 8 (by omega)]
  · intro i hip hi0 hi8 hiPL
    rw [hpos] at hip
    rw [hform, hFB, getD_set_ne _ (Ne.symm hi8), hM2, getD_set_ne _ (Ne.symm hi0),
      hM1, getD_set_ne _ (Ne.symm hiPL)]
    by_cases hlo : i < pre.length
    · rw [hDsmall i hlo, hbufsmall i hlo]
    · have hgt : pre.length < i := by omega
      rw [hD, getD_append_right (by omega : pre.length ≤ i), hbuf,
        getD_append_right (by omega : pre.length ≤ i)]
      obtain ⟨m, hm⟩ : ∃ m, i - pre.length = m + 1 := ⟨i - pre.length - 1, by omega⟩
      rw [hm]
      simp only [List.getD_cons_succ]
      cases m with
      | zero => simp
      | succ m2 =>
          simp only [List.getD_cons_succ]
          have hm2 : m2 < A.length := by omega
          rw [getD_append_left hm2, getD_append_left hm2]
  · rw [hform, hFB, hM2, hM1,
      List.drop_set_of_lt _ _ (by omega : 8 < pre.length + 2),
      List.drop_set_of_lt _ _ (by omega : 0 < pre.length + 2),
      List.drop_set_of_lt _ _ (by omega : pre.length < pre.length + 2)]
    have hDdrop : D.drop (pre.length + 2) = A ++ C := by
      rw [hD, List.drop_append]
      simp
    rw [hDdrop]
    have hser2 : A ++ C = serKids (kids.eraseIdx j) := by
      rw [List.eraseIdx_eq_take_drop_succ, serKids_append, ← hA, ← hC]
    rw [hser2]
    exact scanBanks_serKids _ _ _ (le_refl _)
  · intro n hn
    simp only [markObsolete, List.mem_map] at hn
    obtain ⟨a, _, rfl⟩ := hn
    rfl

/-- C6 (witness): the removal properties on the spec's scenario 5 — an
event bank with three 8-word children, removing the middle one. -/
theorem c6_removeStructure_witness :
    (1 < kidsW.length ∧ 9 ≤ preW.length ∧
     kidWords (kidsW.getD 1 (0, [])) ≤ preW.getD 0 0 ∧
     4 * kidWords (kidsW.getD 1 (0, [])) ≤ preW.getD 8 0) ∧
    ((removeStructure (eventBuf preW 1000 kidsW) (childNode preW kidsW 1)).length =
       (eventBuf preW 1000 kidsW).length - (childNode preW kidsW 1).totalW ∧
     (∀ i, (childNode preW kidsW 1).posW ≤ i →
       (removeStructure (eventBuf preW 1000 kidsW) (childNode preW kidsW 1)).getD i 0 =
         (eventBuf preW 1000 kidsW).getD (i + (childNode preW kidsW 1).totalW) 0) ∧
     (removeStructure (eventBuf preW 1000 kidsW) (childNode preW kidsW 1)).getD
         preW.length 0 =
       (eventBuf preW 1000 kidsW).getD preW.length 0 - (childNode preW kidsW 1).totalW ∧
     (removeStructure (eventBuf preW 1000 kidsW) (childNode preW kidsW 1)).getD 0 0 =
       (eventBuf preW 1000 kidsW).getD 0 0 - (childNode preW kidsW 1).totalW ∧
     (removeStructure (eventBuf preW 1000 kidsW) (childNode preW kidsW 1)).getD 8 0 =
       (eventBuf preW 1000 kidsW).getD 8 0 - 4 * (childNode preW kidsW 1).totalW ∧
     (∀ i, i < (childNode preW kidsW 1).posW → i ≠ 0 → i ≠ 8 → i ≠ preW.length →
       (removeStructure (eventBuf preW 1000 kidsW) (childNode preW kidsW 1)).getD i 0 =
         (eventBuf preW 1000 kidsW).getD i 0) ∧
     scanBanks (kidsW.eraseIdx 1).length (preW.length + 2)
       ((removeStructure (eventBuf preW 1000 kidsW) (childNode preW kidsW 1)).drop
         (preW.length + 2)) =
       some (expectedScan (preW.length + 2) (kidsW.eraseIdx 1)) ∧
     (∀ n ∈ markObsolete [RNode.mk 9 8 0 [9] false], n.obsolete = true)) :=
  ⟨by decide,
   c6_removeStructure preW 1000 kidsW 1 [RNode.mk 9 8 0 [9] false] (by decide)
     (by decide) (by decide) (by decide)⟩

/-- C7: `Reader::addStructure` fetches the node for the length updates with
`eventNodes.get(eventNumber)` instead of `eventNumber - 1`.  For the last
(or only) event that lookup is out of range, so the call fails even though
the addressed event exists; when a following event exists, its stale
pre-insertion position receives the increment, corrupting the first
inserted word, while the addressed event's own length word stays unchanged.
Only the record-header updates (length word 0, uncompressed length word 8)
come out as the claim states. -/
theorem c7_addStructure_wrong_node :
    addStructure ([20, 0, 0, 0, 0, 6, 0, 0, 80] ++ [2, 100, 7])
      [ENode.mk 12 9 0] 1 [1, 2] = none ∧
    addStructure ([20, 0, 0, 0, 0, 6, 0, 0, 80] ++ [2, 100, 7] ++ [3, 200, 8, 9])
      [ENode.mk 12 9 0, ENode.mk 16 12 0] 1 [1, 2] =
      some [22, 0, 0, 0, 0, 6, 0, 0, 88, 2, 100, 7, 3, 2, 3, 200, 8, 9] ∧
    ((addStructure ([20, 0, 0, 0, 0, 6, 0, 0, 80] ++ [2, 100, 7] ++ [3, 200, 8, 9])
      [ENode.mk 12 9 0, ENode.mk 16 12 0] 1 [1, 2]).getD []).getD 9 0 = 2 := by
  decide

/-- C5 (witness): the double-swap identity on a concrete two-level event —
a bank of banks whose child holds a uint32 payload — on a little-endian
host. -/
theorem c5_swap_double_identity_witness :
    (kindOf (EvStruct.mk SKind.bank 2 0 3 (EvContent.kids 0xe SKind.bank
        (EvForest.cons (EvStruct.mk SKind.bank 1 0 1 (EvContent.prim 1 [5, 6]))
          EvForest.nil))) = SKind.bank ∧
     wfS (EvStruct.mk SKind.bank 2 0 3 (EvContent.kids 0xe SKind.bank
        (EvForest.cons (EvStruct.mk SKind.bank 1 0 1 (EvContent.prim 1 [5, 6]))
          EvForest.nil))) = true ∧
     fuelS (EvStruct.mk SKind.bank 2 0 3 (EvContent.kids 0xe SKind.bank
        (EvForest.cons (EvStruct.mk SKind.bank 1 0 1 (EvContent.prim 1 [5, 6]))
          EvForest.nil))) ≤ 5) ∧
    ((evioswap true 5 (serSx true (EvStruct.mk SKind.bank 2 0 3 (EvContent.kids 0xe
        SKind.bank (EvForest.cons (EvStruct.mk SKind.bank 1 0 1 (EvContent.prim 1 [5, 6]))
          EvForest.nil)))) true =
        some (serS true (EvStruct.mk SKind.bank 2 0 3 (EvContent.kids 0xe SKind.bank
          (EvForest.cons (EvStruct.mk SKind.bank 1 0 1 (EvContent.prim 1 [5, 6]))
            EvForest.nil)))) ∧
      evioswap true 5 (serS true (EvStruct.mk SKind.bank 2 0 3 (EvContent.kids 0xe
        SKind.bank (EvForest.cons (EvStruct.mk SKind.bank 1 0 1 (EvContent.prim 1 [5, 6]))
          EvForest.nil)))) false =
        some (serSx true (EvStruct.mk SKind.bank 2 0 3 (EvContent.kids 0xe SKind.bank
          (EvForest.cons (EvStruct.mk SKind.bank 1 0 1 (EvContent.prim 1 [5, 6]))
            EvForest.nil))))) ∧
     (evioswap true 5 (serSx true (EvStruct.mk SKind.bank 2 0 3 (EvContent.kids 0xe
        SKind.bank (EvForest.cons (EvStruct.mk SKind.bank 1 0 1 (EvContent.prim 1 [5, 6]))
          EvForest.nil)))) true).bind
        (fun y => evioswap true 5 y false) =
       some (serSx true (EvStruct.mk SKind.bank 2 0 3 (EvContent.kids 0xe SKind.bank
         (EvForest.cons (EvStruct.mk SKind.bank 1 0 1 (EvContent.prim 1 [5, 6]))
           EvForest.nil)))) ∧
     (evioswap true 5 (serS true (EvStruct.mk SKind.bank 2 0 3 (EvContent.kids 0xe
        SKind.bank (EvForest.cons (EvStruct.mk SKind.bank 1 0 1 (EvContent.prim 1 [5, 6]))
          EvForest.nil)))) false).bind
        (fun y => evioswap true 5 y true) =
       some (serS true (EvStruct.mk SKind.bank 2 0 3 (EvContent.kids 0xe SKind.bank
         (EvForest.cons (EvStruct.mk SKind.bank 1 0 1 (EvContent.prim 1 [5, 6]))
           EvForest.nil))))) :=
  ⟨⟨rfl, by decide, by decide⟩,
   c5_swap_double_identity true
     (EvStruct.mk SKind.bank 2 0 3 (EvContent.kids 0xe SKind.bank
       (EvForest.cons (EvStruct.mk SKind.bank 1 0 1 (EvContent.prim 1 [5, 6]))
         EvForest.nil))) 5 rfl (by decide) (by decide)⟩

/-! ## Theorems: file scanning -/

theorem indexLoop_getD_pos (pairs : List (Nat × Nat)) :
    ∀ p i, i < (indexLoop p pairs).length →
      ((indexLoop p pairs).getD i rp0).pos =
        p + sumLens ((indexLoop p pairs).take i) := by
  induction pairs with
  | nil =>
    intro p i h
    simp [indexLoop] at h
  | cons hd tl ih =>
    intro p i h
    cases i with
    | zero => simp [indexLoop, sumLens]
    | succ i =>
      simp only [indexLoop, List.length_cons, Nat.succ_lt_succ_iff] at h
      have hh := ih (p + hd.1) i h
      simp only [indexLoop, List.getD_cons_succ, List.take_succ_cons]
      rw [hh]
      simp only [sumLens, List.map_cons, List.sum_cons]
      omega

theorem forceScanLoop_getD_pos (m : FileModelS) :
    ∀ fuel p i, i < (forceScanLoop m fuel p).length →
      ((forceScanLoop m fuel p).getD i rp0).pos =
        p + sumLens ((forceScanLoop m fuel p).take i) := by
  intro fuel
  induction fuel with
  | zero =>
    intro p i h
    simp [forceScanLoop] at h
  | succ fuel ih =>
    intro p i h
    by_cases hc : p < m.fileSize - 56
    · cases i with
      | zero => simp [forceScanLoop, hc, sumLens]
      | succ i =>
        simp only [forceScanLoop, hc, if_true, List.length_cons,
          Nat.succ_lt_succ_iff] at h
        have hh := ih (p + (m.recAt p).1) i h
        simp only [forceScanLoop, hc, if_true, List.getD_cons_succ,
          List.take_succ_cons]
        rw [hh]
        simp only [sumLens, List.map_cons, List.sum_cons]
        omega
    · simp [forceScanLoop, hc] at h

theorem foldl_addEventSize_length (rps : List RecordPositionS) :
    ∀ idx : List Nat,
      (rps.foldl (fun a r => addEventSize a r.count) idx).length =
        idx.length + rps.length := by
  induction rps with
  | nil =>
    intro idx
    simp
  | cons r rest ih =>
    intro idx
    simp only [List.foldl_cons]
    rw [ih]
    simp [addEventSize]
    omega

theorem foldl_addEventSize_prefix (rps : List RecordPositionS) :
    ∀ idx : List Nat, ∃ t,
      rps.foldl (fun a r => addEventSize a r.count) idx = idx ++ t := by
  induction rps with
  | nil =>
    intro idx
    exact ⟨[], by simp⟩
  | cons r rest ih =>
    intro idx
    obtain ⟨t, ht⟩ := ih (addEventSize idx r.count)
    refine ⟨[idx.getLastD 0 + r.count] ++ t, ?_⟩
    simp only [List.foldl_cons]
    rw [ht]
    simp [addEventSize, List.append_assoc]

theorem foldl_addEventSize_getD (rps : List RecordPositionS) :
    ∀ (idx : List Nat) i, i < rps.length →
      (rps.foldl (fun a r => addEventSize a r.count) idx).getD
          (idx.length + i) 0 =
        idx.getLastD 0 + sumCounts (rps.take (i + 1)) := by
  induction rps with
  | nil =>
    intro idx i h
    simp at h
  | cons r rest ih =>
    intro idx i h
    cases i with
    | zero =>
      simp only [List.foldl_cons]
      obtain ⟨t, ht⟩ := foldl_addEventSize_prefix rest (addEventSize idx r.count)
      rw [ht]
      simp only [addEventSize, List.append_assoc]
      rw [Nat.add_zero, getD_append_right (le_refl idx.length)]
      simp [sumCounts]
    | succ i =>
      simp only [List.length_cons, Nat.succ_lt_succ_iff] at h
      simp only [List.foldl_cons]
      have hh := ih (addEventSize idx r.count) i h
      have hlen : (addEventSize idx r.count).length = idx.length + 1 := by
        simp [addEventSize]
      rw [hlen] at hh
      have harith : idx.length + (i + 1) = idx.length + 1 + i := by omega
      rw [harith, hh]
      have hlast : (addEventSize idx r.count).getLastD 0 =
          idx.getLastD 0 + r.count := by
        simp [addEventSize]
      rw [hlast]
      simp only [List.take_succ_cons, sumCounts, List.map_cons, List.sum_cons]
      omega

theorem eventIndexOf_length (rps : List RecordPositionS) :
    (eventIndexOf rps).length = rps.length := by
  unfold eventIndexOf
  rw [foldl_addEventSize_length]
  simp

theorem eventIndexOf_getD (rps : List RecordPositionS) (i : Nat)
    (h : i < rps.length) :
    (eventIndexOf rps).getD i 0 = sumCounts (rps.take (i + 1)) := by
  unfold eventIndexOf
  have hh := foldl_addEventSize_getD rps [] i h
  simpa using hh

theorem scanFile_shape (m : FileModelS) (force : Bool) :
    (∃ p, scanFile m force = forceScanLoop m m.fileSize p) ∨
    (∃ p pairs, scanFile m force = indexLoop p pairs) := by
  unfold scanFile forceScanFile
  split_ifs
  · exact Or.inl ⟨_, rfl⟩
  · exact Or.inl ⟨_, rfl⟩
  · exact Or.inr ⟨_, _, rfl⟩
  · exact Or.inl ⟨_, rfl⟩
  · exact Or.inr ⟨_, _, rfl⟩
  · exact Or.inr ⟨_, _, rfl⟩

/-- C8: however `Reader::scanFile` builds `recordPositions` — the trailer
index when `hasTrailerWithIndex` is set with a valid trailer position, the
index following the file header when `hasIndex` is set (also as the
fallback for an invalid trailer position), or the linear `forceScanFile`
walk by record lengths — the stored position of record i equals the first
record's position plus the sum of the lengths of records 0 through i-1,
and the event index accumulates each record's event count into prefix
sums. -/
theorem c8_scan_positions (m : FileModelS) (force : Bool) (i : Nat)
    (h : i < (scanFile m force).length) :
    ((scanFile m force).getD i rp0).pos =
      ((scanFile m force).getD 0 rp0).pos +
        sumLens ((scanFile m force).take i) ∧
    (eventIndexOf (scanFile m force)).length = (scanFile m force).length ∧
    (eventIndexOf (scanFile m force)).getD i 0 =
      sumCounts ((scanFile m force).take (i + 1)) ∧
    (force = false → m.fhHasTrailerWithIndex = true →
      1 ≤ m.fhTrailerPosition →
      scanFile m force = indexLoop m.fhLength m.trailerIndex) ∧
    (force = false → m.fhHasTrailerWithIndex = false → m.fhHasIndex = true →
      scanFile m force = indexLoop m.fhLength m.headerIndex) ∧
    (force = false → m.fhHasTrailerWithIndex = true →
      m.fhTrailerPosition < 1 → m.fhHasIndex = true →
      scanFile m force = indexLoop m.fhLength m.headerIndex) ∧
    (m.fhHasTrailerWithIndex = false → m.fhHasIndex = false →
      scanFile m force = forceScanFile m) := by
  have h0 : 0 < (scanFile m force).length := by omega
  refine ⟨?_, eventIndexOf_length _, eventIndexOf_getD _ i h, ?_, ?_, ?_, ?_⟩
  · rcases scanFile_shape m force with ⟨p, hp⟩ | ⟨p, pairs, hp⟩
    · rw [hp] at h h0 ⊢
      rw [forceScanLoop_getD_pos m m.fileSize p i h,
          forceScanLoop_getD_pos m m.fileSize p 0 h0]
      simp [sumLens]
    · rw [hp] at h h0 ⊢
      rw [indexLoop_getD_pos pairs p i h, indexLoop_getD_pos pairs p 0 h0]
      simp [sumLens]
  · intro hf ht htp
    have hn : ¬ m.fhTrailerPosition < 1 := by omega
    simp [scanFile, hf, ht, hn]
  · intro hf ht hi
    simp [scanFile, hf, ht, hi]
  · intro hf ht htp hi
    simp [scanFile, hf, ht, htp, hi]
  · intro ht hi
    cases force <;> simp [scanFile, ht, hi]

/-- C8 (witness): the two-record trailer index of `fileModelW` at record
i = 1. -/
theorem c8_scan_positions_witness :
    1 < (scanFile fileModelW false).length ∧
    (((scanFile fileModelW false).getD 1 rp0).pos =
      ((scanFile fileModelW false).getD 0 rp0).pos +
        sumLens ((scanFile fileModelW false).take 1) ∧
    (eventIndexOf (scanFile fileModelW false)).length =
      (scanFile fileModelW false).length ∧
    (eventIndexOf (scanFile fileModelW false)).getD 1 0 =
      sumCounts ((scanFile fileModelW false).take 2) ∧
    (false = false → fileModelW.fhHasTrailerWithIndex = true →
      1 ≤ fileModelW.fhTrailerPosition →
      scanFile fileModelW false =
        indexLoop fileModelW.fhLength fileModelW.trailerIndex) ∧
    (false = false → fileModelW.fhHasTrailerWithIndex = false →
      fileModelW.fhHasIndex = true →
      scanFile fileModelW false =
        indexLoop fileModelW.fhLength fileModelW.headerIndex) ∧
    (false = false → fileModelW.fhHasTrailerWithIndex = true →
      fileModelW.fhTrailerPosition < 1 → fileModelW.fhHasIndex = true →
      scanFile fileModelW false =
        indexLoop fileModelW.fhLength fileModelW.headerIndex) ∧
    (fileModelW.fhHasTrailerWithIndex = false → fileModelW.fhHasIndex = false →
      scanFile fileModelW false = forceScanFile fileModelW)) :=
  ⟨by decide, c8_scan_positions fileModelW false 1 (by decide)⟩

/-! ## Theorems: the ring writer -/

theorem ringStep_inv {N R : Nat} {recs : List (List Nat)}
    {build : List Nat → List Nat} {s s2 : RingState}
    (hstep : RingStep N R recs build s s2)
    (hinv : s.output = ((recs.take s.writerSeq).map build).flatten) :
    s2.output = ((recs.take s2.writerSeq).map build).flatten := by
  cases hstep with
  | produce h1 h2 => exact hinv
  | compress i k hk hs h1 h2 => exact hinv
  | write h1 h2 =>
    simp only
    rw [hinv, List.take_succ, List.getElem?_eq_getElem h2]
    simp only [List.map_append, List.flatten_append]
    simp [List.getD_eq_getElem?_getD, List.getElem?_eq_getElem h2]

theorem ringReach_inv {N R : Nat} {recs : List (List Nat)}
    {build : List Nat → List Nat} {s : RingState}
    (hreach : Relation.ReflTransGen (RingStep N R recs build) ringInit s) :
    s.output = ((recs.take s.writerSeq).map build).flatten := by
  induction hreach with
  | refl => simp [ringInit]
  | tail hab hbc ih => exact ringStep_inv hbc ih

/-- C9: modelled from the spec, since the `WriterMT`/`RecordSupply`
implementation is not among the sources.  Under the ring's gating rules —
producer publishing records in submission order, any interleaving of the
N strided compression workers, writer consuming strictly in sequence
order — every complete run ends with the file bytes equal to the builds
of the records in submission order, for every worker count N ≥ 1 and
every ring size; in particular the bytes for one and for four compression
threads coincide. -/
theorem c9_ring_order_independent (N R : Nat) (recs : List (List Nat))
    (build : List Nat → List Nat) (s : RingState) (hN : 1 ≤ N)
    (hreach : Relation.ReflTransGen (RingStep N R recs build) ringInit s)
    (hdone : s.writerSeq = recs.length) :
    s.output = (recs.map build).flatten := by
  have hh := ringReach_inv hreach
  rw [hdone, List.take_length] at hh
  exact hh

/-- C9 (witness): a complete run with two records and two compression
workers that compresses out of submission order yet writes in order. -/
theorem c9_ring_order_independent_witness :
    1 ≤ 2 ∧ ringFinalW.writerSeq = recsW.length ∧
    ringFinalW.output = (recsW.map buildW).flatten := by
  have s1 : RingStep 2 16 recsW buildW ringInit (RingState.mk 1 [] 0 []) :=
    RingStep.produce ringInit (by decide) (by decide)
  have s2 : RingStep 2 16 recsW buildW (RingState.mk 1 [] 0 [])
      (RingState.mk 2 [] 0 []) :=
    RingStep.produce _ (by decide) (by decide)
  have s3 : RingStep 2 16 recsW buildW (RingState.mk 2 [] 0 [])
      (RingState.mk 2 [1] 0 []) :=
    RingStep.compress _ 1 1 (by decide) (by decide) (by decide) (by decide)
  have s4 : RingStep 2 16 recsW buildW (RingState.mk 2 [1] 0 [])
      (RingState.mk 2 [0, 1] 0 []) :=
    RingStep.compress _ 0 0 (by decide) (by decide) (by decide) (by decide)
  have s5 : RingStep 2 16 recsW buildW (RingState.mk 2 [0, 1] 0 [])
      (RingState.mk 2 [0, 1] 1 [1, 1]) :=
    RingStep.write _ (by decide) (by decide)
  have s6 : RingStep 2 16 recsW buildW (RingState.mk 2 [0, 1] 1 [1, 1])
      ringFinalW :=
    RingStep.write _ (by decide) (by decide)
  have tr : Relation.ReflTransGen (RingStep 2 16 recsW buildW)
      ringInit ringFinalW :=
    Relation.ReflTransGen.head s1 (Relation.ReflTransGen.head s2
      (Relation.ReflTransGen.head s3 (Relation.ReflTransGen.head s4
        (Relation.ReflTransGen.head s5 (Relation.ReflTransGen.head s6
          Relation.ReflTransGen.refl)))))
  exact ⟨by decide, by decide,
    c9_ring_order_independent 2 16 recsW buildW ringFinalW (by decide) tr
      (by decide)⟩

/-! ## Theorems: the getEvent guard -/

/-- C10: `Reader::getEvent` checks the index first: a negative index or
one at or past the event count returns null rather than failing, and it
leaves the reader — the shared sequential cursor and the currently loaded
record included — exactly as it was. -/
theorem c10_getEvent_oob (r : ReaderState) (index : Int)
    (h : index < 0 ∨ (r.maxEvents : Int) ≤ index) :
    getEvent r index = (none, r) := by
  unfold getEvent
  rw [if_pos h]

/-- C10 (witness): `readerW` holds two events, so index 5 is out of
bounds: the call returns none and the state is untouched. -/
theorem c10_getEvent_oob_witness :
    ((5 : Int) < 0 ∨ ((readerW.maxEvents : Int) ≤ 5)) ∧
    getEvent readerW 5 = (none, readerW) :=
  ⟨by decide, c10_getEvent_oob readerW 5 (by decide)⟩

end Evio
